import Mathlib

/-!
Verification of the SOQL query-splitting, cursor and HTTP-retry layer of a
Django→Salesforce database adapter.  Python sources are shallowly embedded:
strings are `List Char`, regex passes become explicit character scans,
exceptions become `Option`/`Except`, and network traffic is passed in as
explicit data.  Every definition mirrors one Python function and is named
after it where possible.
-/

namespace Salesforce

/-- Python regex class `\w` (ASCII view): letters, digits and underscore. -/
def isWordChar (c : Char) : Bool := c.isAlphanum || c = '_'

/-- Python regex class `\s`: whitespace characters. -/
def isSpaceChar (c : Char) : Bool :=
  c = ' ' || c = '\t' || c = '\n' || c = '\r' || c = '\x0b' || c = '\x0c'

/-- Characters allowed outside quoted literals by `out_pattern =
re.compile("^(?:[-!()*+,.:<=>\\w\\s|%s])*$")` in `mark_quoted_strings`.
The `%s` in the source is not interpolated: it stands literally for the two
characters `%` and `s` (and `s` is already covered by `\w`). -/
def allowedOutChar (c : Char) : Bool :=
  isWordChar c || isSpaceChar c ||
  c = '-' || c = '!' || c = '(' || c = ')' || c = '*' || c = '+' ||
  c = ',' || c = '.' || c = ':' || c = '<' || c = '=' || c = '>' ||
  c = '|' || c = '%'

/-- `out_pattern.match(part)` succeeds iff every character is allowed. -/
def allowedOut (l : List Char) : Bool := l.all allowedOutChar

/-- Match the body of a single-quoted literal just after its opening quote,
following `pm_pattern = re.compile(r"'[^\\']*(?:\\[\\'][^\\']*)*'")`:
the content is a sequence of plain characters (neither backslash nor quote)
and two-character escapes `\\` or `\'`, ended by the closing quote.
Returns the raw content (escapes kept) and the number of characters
consumed including the closing quote, or `none` when the pattern cannot
match at this position. -/
def matchBody : List Char → Option (List Char × Nat)
  | [] => none
  | '\'' :: _ => some ([], 1)
  | '\\' :: c :: rest =>
    if c = '\\' || c = '\'' then
      (matchBody rest).map fun p => ('\\' :: c :: p.1, p.2 + 2)
    else none
  | ['\\'] => none
  | c :: rest => (matchBody rest).map fun p => (c :: p.1, p.2 + 1)

/-- `bs_pattern.sub('\\1', content)`: left-to-right unescaping of `\\` and
`\'` as done by `re.sub` (non-overlapping matches, scanning forward). -/
def bsUnescape : List Char → List Char
  | '\\' :: c :: rest =>
    if c = '\\' || c = '\'' then c :: bsUnescape rest
    else '\\' :: bsUnescape (c :: rest)
  | c :: rest => c :: bsUnescape rest
  | [] => []

/-- Python `param.replace('\\', '\\\\')`. -/
def escBackslash (l : List Char) : List Char :=
  (l.map fun c => if c = '\\' then ['\\', '\\'] else [c]).flatten

/-- Python `param.replace("'", "\\'")`. -/
def escQuote (l : List Char) : List Char :=
  (l.map fun c => if c = '\'' then ['\\', '\''] else [c]).flatten

/-- The re-escaping applied by `subst_quoted_strings`:
`param.replace('\\', '\\\\').replace("'", "\\'")`. -/
def pyEscape (l : List Char) : List Char := escQuote (escBackslash l)

/-- The scanning pass of `mark_quoted_strings` (`pm_pattern.finditer`):
split the input into the text before the first quoted literal and the list of
(unescaped literal content, following text) pairs, in order of appearance.
A quote at which the literal pattern cannot match stays inside the
surrounding text, exactly as `finditer` would skip it. -/
def scanParts : List Char → List Char × List (List Char × List Char)
  | [] => ([], [])
  | '\'' :: rest =>
    match matchBody rest with
    | some (content, n) =>
      let r := scanParts (rest.drop n)
      ([], (bsUnescape content, r.1) :: r.2)
    | none =>
      let r := scanParts rest
      ('\'' :: r.1, r.2)
  | c :: rest =>
    let r := scanParts rest
    (c :: r.1, r.2)
termination_by l => l.length
decreasing_by
  all_goals simp_wf <;> omega

/-- `mark_quoted_strings(sql)`: replace each quoted literal by the marker
`@` and collect the unescaped contents.  `none` models the `AssertionError`
raised when text outside the literals contains a disallowed character. -/
def mark_quoted_strings (sql : List Char) : Option (List Char × List (List Char)) :=
  let r := scanParts sql
  if allowedOut r.1 && r.2.all (fun p => allowedOut p.2) then
    some (r.1 ++ (r.2.map fun p => '@' :: p.2).flatten, r.2.map Prod.fst)
  else none

/-- Python `sql.split('@')`. -/
def splitAmp : List Char → List (List Char)
  | [] => [[]]
  | '@' :: rest => [] :: splitAmp rest
  | c :: rest =>
    match splitAmp rest with
    | p :: ps => (c :: p) :: ps
    | [] => [[c]]

/-- The joining loop of `subst_quoted_strings`: interleave the split parts
with the re-escaped, re-quoted parameters. -/
def joinQuoted : List (List Char) → List (List Char) → List Char
  | [], _ => []
  | p :: _, [] => p
  | p :: ps, q :: qs => p ++ ['\''] ++ pyEscape q ++ ['\''] ++ joinQuoted ps qs

/-- `subst_quoted_strings(sql, params)`: split on `@` and substitute the
quoted, re-escaped parameters back.  `none` models the `AssertionError`
when the number of parts does not fit the number of parameters. -/
def subst_quoted_strings (sql : List Char) (params : List (List Char)) :
    Option (List Char) :=
  let parts := splitAmp sql
  if parts.length = params.length + 1 then some (joinQuoted parts params)
  else none

/-! ### `simplify_expression` — whitespace normalization (backend/subselect.py) -/

/-- Python `txt.strip()`. -/
def pyStrip (l : List Char) : List Char :=
  ((l.dropWhile isSpaceChar).reverse.dropWhile isSpaceChar).reverse

/-- Scanner for `re.sub(r'(?<=\W)\s', '', t)` carrying the previous original
character: a whitespace character is dropped when the character before it in
the original text is a non-word character. -/
def delAfterNonwordGo (prev : Char) : List Char → List Char
  | [] => []
  | c :: rest =>
    if isSpaceChar c && !isWordChar prev then delAfterNonwordGo c rest
    else c :: delAfterNonwordGo c rest

/-- `re.sub(r'(?<=\W)\s', '', t)`: the lookbehind never matches at position 0. -/
def delAfterNonword : List Char → List Char
  | [] => []
  | c :: rest => c :: delAfterNonwordGo c rest

/-- `re.sub(r'\s(?=\W)', '', t)`: drop a whitespace character followed by a
non-word character (the lookahead needs a following character, so the last
character is always kept). -/
def delBeforeNonword : List Char → List Char
  | [] => []
  | [c] => [c]
  | c :: d :: rest =>
    if isSpaceChar c && !isWordChar d then delBeforeNonword (d :: rest)
    else c :: delBeforeNonword (d :: rest)

/-- `re.sub(r'\s', ' ', t)`. -/
def spacesToBlank (l : List Char) : List Char :=
  l.map fun c => if isSpaceChar c then ' ' else c

/-- `RESERVED_WORDS` of backend/subselect.py (alias names must avoid them,
and they drive one whitespace-insertion rule). -/
def RESERVED_WORDS : List (List Char) :=
  ["AND".data, "ASC".data, "DESC".data, "EXCLUDES".data, "FIRST".data,
   "FROM".data, "GROUP".data, "HAVING".data, "IN".data, "INCLUDES".data,
   "LAST".data, "LIKE".data, "LIMIT".data, "NOT".data, "NULL".data,
   "NULLS".data, "OR".data, "SELECT".data, "WHERE".data, "WITH".data]

/-- Scanner for `re.sub(r'(,|\b(?:{reserved}))\(', '\\1 (', t)`: insert one
space between a comma or a reserved word (at a word boundary) and a directly
following opening parenthesis.  `prevWord` tells whether the previous
original character is a word character (for the `\b` assertion); at most one
reserved word can match at a given position, so the scan is deterministic. -/
def insParenGo (prevWord : Bool) : List Char → List Char
  | [] => []
  | ',' :: '(' :: rest => ',' :: ' ' :: '(' :: insParenGo false rest
  | c :: rest =>
    if !prevWord then
      match RESERVED_WORDS.find? (fun w => (w ++ ['(']).isPrefixOf (c :: rest)) with
      | some w => w ++ [' ', '('] ++ insParenGo false ((c :: rest).drop (w.length + 1))
      | none => c :: insParenGo (isWordChar c) rest
    else c :: insParenGo (isWordChar c) rest
termination_by l => l.length
decreasing_by all_goals simp_wf <;> omega

/-- `re.sub(r'\)(?=\w)', ') ', t)`: insert one space between a closing
parenthesis and a directly following word character. -/
def insAfterParen : List Char → List Char
  | [] => []
  | [c] => [c]
  | ')' :: c :: rest =>
    if isWordChar c then ')' :: ' ' :: insAfterParen (c :: rest)
    else ')' :: insAfterParen (c :: rest)
  | c :: rest => c :: insAfterParen rest

/-- `simplify_expression(txt)`: strip, remove whitespace adjacent to
non-word characters, map remaining whitespace to single spaces, then insert
the two canonical spaces around parentheses. -/
def simplify_expression (txt : List Char) : List Char :=
  insAfterParen (insParenGo false
    (spacesToBlank (delBeforeNonword (delAfterNonword (pyStrip txt)))))

/-! ### `find_closing_parenthesis` and `split_subquery` -/

/-- Result of `find_closing_parenthesis`: `err` models the `AssertionError`
on a closing parenthesis at level 0, `nothing` the Python `None` fallthrough. -/
inductive FindParen where
  | err
  | nothing
  | found (opening closing : Nat)
deriving DecidableEq, Repr

/-- Loop body of `find_closing_parenthesis` over `pattern.finditer(sql, startpos)`:
`i` is the absolute index of the current character. -/
def fcpGo : List Char → Nat → Nat → Nat → FindParen
  | [], _, _, _ => .nothing
  | c :: rest, i, level, opening =>
    if c = '(' then fcpGo rest (i + 1) (level + 1) (if level = 0 then i else opening)
    else if c = ')' then
      if level = 0 then .err
      else if level = 1 then .found opening (i + 1)
      else fcpGo rest (i + 1) (level - 1) opening
    else fcpGo rest (i + 1) level opening

/-- `find_closing_parenthesis(sql, startpos)`. -/
def find_closing_parenthesis (sql : List Char) (startpos : Nat) : FindParen :=
  fcpGo (sql.drop startpos) startpos 0 0

/-- Python slice `sql[a:b]`. -/
def slice (sql : List Char) (a b : Nat) : List Char := (sql.drop a).take (b - a)

/-- Does `l` begin with `(SELECT` (case-insensitive) at a word boundary,
per `re.compile(r'\(SELECT\b', re.I)`? -/
def parSelectAt (l : List Char) : Bool :=
  match l with
  | '(' :: rest =>
    ((rest.take 6).map Char.toUpper = "SELECT".data) &&
    (match rest.drop 6 with
     | [] => true
     | c :: _ => !isWordChar c)
  | _ => false

/-- `pattern.search(sql, start)`: least index `i ≥ start` where `p` matches. -/
def searchFrom (p : List Char → Bool) (sql : List Char) (start : Nat) : Option Nat :=
  (List.range (sql.length + 1)).find? fun i => decide (start ≤ i) && p (sql.drop i)

/-- The recursive result shape of `split_subquery`: the flattened text and the
child splits, one per extracted subquery, in textual order. -/
inductive Split where
  | mk (text : List Char) (children : List Split)

def Split.text : Split → List Char
  | .mk t _ => t

def Split.children : Split → List Split
  | .mk _ c => c

mutual

/-- `split_subquery(sql)`: mark quoted strings (the collected parameters are
discarded by the source — `_ = params`), normalize whitespace, then replace
every balanced `(SELECT ...)` span by `(&)`, recursing into the extracted
span.  The fuel bounds the recursion depth (the Python recursion terminates
because nesting is finite); `none` also models the exceptions raised on
malformed input (failed quote marking, unbalanced parentheses). -/
def split_subquery : Nat → List Char → Option (List Char × List Split)
  | 0, _ => none
  | fuel + 1, sqlIn => do
    let (sql, _params) ← mark_quoted_strings sqlIn
    let sql := simplify_expression sql
    splitSubLoop fuel sql 0

/-- The `while match:` loop of `split_subquery`, producing the text from
position `start` on (with placeholders) and the subqueries found there. -/
def splitSubLoop : Nat → List Char → Nat → Option (List Char × List Split)
  | 0, _, _ => none
  | fuel + 1, sql, start =>
    match searchFrom parSelectAt sql start with
    | none => some (sql.drop start, [])
    | some m =>
      let piece := slice sql start (m + 1) ++ ['&']
      match find_closing_parenthesis sql m with
      | .found o c => do
        let inner := slice sql (o + 1) (c - 1)
        let sub ← split_subquery fuel inner
        let (restTxt, subs) ← splitSubLoop fuel sql (c - 1)
        some (piece ++ restTxt, .mk sub.1 sub.2 :: subs)
      | _ => none

end

/-! ### `QQuery._from_sql` — parsing one (sub)query into a descriptor -/

def toUpperL (l : List Char) : List Char := l.map Char.toUpper

def lowerL (l : List Char) : List Char := l.map Char.toLower

/-- Python `s.split(sep)` for a single-character separator. -/
def splitOnChar (sep : Char) : List Char → List (List Char)
  | [] => [[]]
  | c :: rest =>
    if c = sep then [] :: splitOnChar sep rest
    else
      match splitOnChar sep rest with
      | p :: ps => (c :: p) :: ps
      | [] => [[c]]

/-- First component of Python `s.split(sep, 1)`. -/
def beforeFirst (sep : Char) (l : List Char) : List Char :=
  l.takeWhile fun c => c != sep

/-- Second component of Python `s.split(sep, 1)` (everything after the first
separator). -/
def afterFirst (sep : Char) (l : List Char) : List Char :=
  (l.dropWhile fun c => c != sep).drop 1

/-- The match of `re.search(r'\b\w+$', field)`: the maximal run of word
characters at the end of the text (the `\b` holds by maximality); empty when
the text does not end in a word character. -/
def trailingWordRun (l : List Char) : List Char :=
  (l.reverse.takeWhile isWordChar).reverse

/-- Does `l` begin with `GROUP BY` (case-insensitive) ending at a word
boundary, for `pattern_groupby = re.compile(r'\bGROUP BY\b', re.I)`? -/
def matchGroupByAt (l : List Char) : Bool :=
  (toUpperL (l.take 8) = "GROUP BY".data) &&
  (match l.drop 8 with
   | [] => true
   | c :: _ => !isWordChar c)

def searchGroupByGo (prevWord : Bool) : List Char → Bool
  | [] => false
  | c :: rest =>
    (!prevWord && matchGroupByAt (c :: rest)) || searchGroupByGo (isWordChar c) rest

/-- `pattern_groupby.search(text)` as a Boolean. -/
def searchGroupBy (l : List Char) : Bool := searchGroupByGo false l

/-- `AGGREGATION_WORDS` of backend/subselect.py. -/
def AGGREGATION_WORDS : List (List Char) :=
  ["AVG".data, "COUNT".data, "COUNT_DISTINCT".data, "MIN".data, "MAX".data, "SUM".data]

/-- Does `l` begin with an aggregation word (at a word boundary on the left,
checked by the caller) directly followed by `(`, for
`pattern_aggregation = re.compile(r'\b(?:AVG|COUNT|...)(?=\()', re.I)`? -/
def matchAggAt (l : List Char) : Bool :=
  AGGREGATION_WORDS.any fun w =>
    (toUpperL (l.take w.length) = w) &&
    (match l.drop w.length with
     | '(' :: _ => true
     | _ => false)

def searchAggGo (prevWord : Bool) : List Char → Bool
  | [] => false
  | c :: rest =>
    (!prevWord && matchAggAt (c :: rest)) || searchAggGo (isWordChar c) rest

/-- `pattern_aggregation.search(text)` as a Boolean. -/
def searchAggWord (l : List Char) : Bool := searchAggGo false l

/-- Does `l` start with `␣FROM␣` (case-insensitive) followed by a word
character — one viable split point of the greedy `(.*) FROM (\w+)\b`? -/
def fromAt (l : List Char) : Bool :=
  (toUpperL (l.take 6) = " FROM ".data) &&
  (match l.drop 6 with
   | c :: _ => isWordChar c
   | [] => false)

/-- Greedy `(.*)` semantics: the split happens at the last viable `␣FROM␣`. -/
def lastFromIdx (rem : List Char) : Option Nat :=
  ((List.range rem.length).filter fun i => fromAt (rem.drop i)).getLast?

/-- `re.match(r'SELECT (.*) FROM (\w+)\b(.*)$', soql, re.I)`: returns
(fields text, root table, trailing text) or `none` (the `ProgrammingError
('Invalid SQL: ...')` branch).  The input is whitespace-normalized, so it
contains no newline and `.*`/`$` need no special treatment. -/
def matchSelectFrom (sql : List Char) : Option (List Char × List Char × List Char) :=
  if toUpperL (sql.take 7) = "SELECT ".data then
    match lastFromIdx (sql.drop 7) with
    | some i =>
      let rem := sql.drop 7
      let fields_sql := rem.take i
      let after := rem.drop (i + 6)
      let root := after.takeWhile isWordChar
      let extra := after.drop root.length
      some (fields_sql, root, extra)
    | none => none
  else none

/-- Source line 75: `self.is_plain_count = fields[0].upper == 'COUNT()'`.
The right-hand side compares the *bound method object* `str.upper` (the call
parentheses are missing) against a string, and a builtin method is never
equal to a string in Python, so the computed flag is `False` for every
query text — including `SELECT COUNT() FROM ...`. -/
def isPlainCountOf (_fields0 : List Char) : Bool := false

/-- The nested `subroots` mapping: insertion-ordered dictionary from
lower-cased path segment to a nested mapping of the same shape. -/
inductive Subroots where
  | node : List (List Char × Subroots) → Subroots

def Subroots.entries : Subroots → List (List Char × Subroots)
  | .node e => e

/-- The `setdefault`/descend loop of `_from_sql` registering the crumbs of a
dotted path into `subroots`. -/
def subrootsInsert : List (List Char) → Subroots → Subroots
  | [], s => s
  | k :: ks, .node es =>
    let es1 := if es.any (fun p => p.1 = k) then es else es ++ [(k, .node [])]
    .node (es1.map fun p => if p.1 = k then (p.1, subrootsInsert ks p.2) else p)

mutual

/-- The parsed query descriptor built by `QQuery._from_sql` (the attributes
this verification uses; `soql` itself is dropped — it is only kept for error
messages). -/
inductive QQueryM where
  | mk (root_table : List Char) (extra_soql : List Char)
       (aliases : List (List Char)) (fields : List QField)
       (is_aggregation : Bool) (is_plain_count : Bool)
       (has_child_rel_field : Bool) (subroots : Subroots)

/-- An entry of `self.fields`: either the (possibly rewritten) field text or
a nested child-relationship `QQuery`. -/
inductive QField where
  | txt (f : List Char)
  | sub (q : QQueryM)

end

def QQueryM.root_table : QQueryM → List Char
  | .mk r _ _ _ _ _ _ _ => r

def QQueryM.extra_soql : QQueryM → List Char
  | .mk _ e _ _ _ _ _ _ => e

def QQueryM.aliases : QQueryM → List (List Char)
  | .mk _ _ a _ _ _ _ _ => a

def QQueryM.fields : QQueryM → List QField
  | .mk _ _ _ f _ _ _ _ => f

def QQueryM.is_aggregation : QQueryM → Bool
  | .mk _ _ _ _ b _ _ _ => b

def QQueryM.is_plain_count : QQueryM → Bool
  | .mk _ _ _ _ _ b _ _ => b

def QQueryM.has_child_rel_field : QQueryM → Bool
  | .mk _ _ _ _ _ _ b _ => b

def QQueryM.subroots : QQueryM → Subroots
  | .mk _ _ _ _ _ _ _ s => s

/-- The mutable loop state of the `for field in fields:` loop of
`_from_sql`. -/
structure FieldState where
  aliases : List (List Char)
  fields : List QField
  subroots : Subroots
  has_child : Bool
  counter : Nat
  consumed : Nat

mutual

/-- `QQuery(soql)` / `QQuery._from_sql(soql)`.  `none` models every raised
exception (`ProgrammingError` for a failed match, `AssertionError` from the
asserts, `IndexError` on a missing subquery entry); the fuel bounds the
recursion into child subqueries. -/
def qqueryFromSql : Nat → List Char → Option QQueryM
  | 0, _ => none
  | fuel + 1, soql => do
    let (sql, subqueries) ← split_subquery (fuel + 1) soql
    let (fields_sql, root, extra) ← matchSelectFrom sql
    let fields := (splitOnChar ',' fields_sql).map pyStrip
    let is_agg := searchGroupBy extra || searchAggWord (fields.headD [])
    let ipc := isPlainCountOf (fields.headD [])
    let st ←
      if ipc then some ⟨[], [], .node [], false, 0, 0⟩
      else fieldLoop fuel is_agg root subqueries fields ⟨[], [], .node [], false, 0, 0⟩
    some (.mk root extra st.aliases st.fields is_agg ipc st.has_child st.subroots)
termination_by fuel _ => (fuel, 0)

/-- One pass of the `for field in fields:` loop of `_from_sql`. -/
def fieldLoop (fuel : Nat) (is_agg : Bool) (root : List Char) (subqs : List Split) :
    List (List Char) → FieldState → Option FieldState
  | [], st => some st
  | field :: rest, st =>
    if is_agg then
      let run := trailingWordRun field
      if run.isEmpty then
        let exprAlias := "expr".data ++ (toString st.counter).data
        if field.contains '&' then none  -- assert: no subquery inside an aggregation
        else
          fieldLoop fuel is_agg root subqs rest
            { st with aliases := st.aliases ++ [exprAlias],
                      fields := st.fields ++ [.txt field],
                      counter := st.counter + 1 }
      else if RESERVED_WORDS.contains run then none  -- assert alias not in RESERVED_WORDS
      else
        let start := field.length - run.length
        -- source line 88 `field = field[match.start() - 1]` keeps one character
        let field2 := if start > 0 && field.getD (start - 1) 'x' = ' ' then [' '] else field
        if field2.contains '&' then none  -- assert: no subquery inside an aggregation
        else
          fieldLoop fuel is_agg root subqs rest
            { st with aliases := st.aliases ++ [run], fields := st.fields ++ [.txt field2] }
    else if field.contains '&' then
      if field = "(&)".data then
        match subqs.get? st.consumed with
        | none => none  -- IndexError: no subquery text left to consume
        | some sp => do
          let child ← qqueryFromSql fuel sp.text
          fieldLoop fuel is_agg root subqs rest
            { st with aliases := st.aliases ++ [child.root_table],
                      fields := st.fields ++ [.sub child],
                      has_child := true,
                      consumed := st.consumed + 1 }
      else none  -- assert field == '(&)'
    else
      let alias0 := field
      let alias1 :=
        if alias0.contains '.' then
          if lowerL (beforeFirst '.' alias0) = lowerL root then afterFirst '.' alias0
          else alias0
        else alias0
      let st1 :=
        if alias0.contains '.' && alias1.contains '.' then
          { st with subroots := subrootsInsert ((splitOnChar '.' (lowerL alias1)).dropLast) st.subroots }
        else st
      fieldLoop fuel is_agg root subqs rest
        { st1 with aliases := st1.aliases ++ [alias1], fields := st1.fields ++ [.txt field] }
termination_by fields _ => (fuel, fields.length + 1)

end

/-! ### JSON values, `_make_flat`, `fix_data_type`, `parse_rest_response` -/

/-- A decoded JSON value (keys kept as `List Char` like all embedded text).
Numbers are irrelevant to the verified claims and carried as `Int`. -/
inductive JVal where
  | null
  | b (v : Bool)
  | i (n : Int)
  | s (v : List Char)
  | obj (fields : List (List Char × JVal))
  | arr (elems : List JVal)

/-- Python dict lookup returning `none` for a `KeyError`. -/
def jGet (fields : List (List Char × JVal)) (k : List Char) : Option JVal :=
  (fields.find? fun p => p.1 = k).map Prod.snd

/-- Python `out[k] = v`: overwrite in place or append, keeping insertion
order. -/
def dictInsert (d : List (List Char × JVal)) (k : List Char) (v : JVal) :
    List (List Char × JVal) :=
  if d.any (fun p => p.1 = k) then d.map fun p => if p.1 = k then (k, v) else p
  else d ++ [(k, v)]

/-- The child-relationship envelope test of `_make_flat`:
`'done' in v and 'records' in v and 'totalSize' in v`. -/
def isEnvelope (fields : List (List Char × JVal)) : Bool :=
  (fields.any fun p => p.1 = "done".data) &&
  (fields.any fun p => p.1 = "records".data) &&
  (fields.any fun p => p.1 = "totalSize".data)

def subrootsHas (s : Subroots) (k : List Char) : Bool :=
  s.entries.any fun p => p.1 = k

def subrootsGet (s : Subroots) (k : List Char) : Option Subroots :=
  (s.entries.find? fun p => p.1 = k).map Prod.snd

/-- `'.'.join(segments)`. -/
def dotJoin (segs : List (List Char)) : List Char :=
  (List.intersperse ['.'] segs).flatten

/-- The leaf branch of `_make_flat`: store the value under its lower-cased
key, or — when the key is a registered subroot — null-fill every alias
under that dotted path (empty outer join). -/
def flatLeafIns (aliases : List (List Char)) (klc : List Char) (v : JVal)
    (path : List (List Char)) (subroots : Subroots)
    (out : List (List Char × JVal)) : List (List Char × JVal) :=
  if !subrootsHas subroots klc then dictInsert out klc v
  else
    let strpath := dotJoin (path ++ [klc]) ++ ['.']
    let strip_pos := strpath.length - (klc.length + 1)
    aliases.foldl
      (fun o a =>
        if strpath.isPrefixOf (lowerL a) then dictInsert o ((lowerL a).drop strip_pos) .null
        else o)
      out

/-- `QQuery._make_flat(row_dict, path, subroots)`, with the output dict
threaded as an accumulator.  `none` models the `KeyError` on
`subroots[klc]` for an unregistered nested relationship key. -/
def flatGo (aliases : List (List Char)) :
    List (List Char × JVal) → List (List Char) → Subroots →
    List (List Char × JVal) → Option (List (List Char × JVal))
  | [], _, _, out => some out
  | (k, v) :: rest, path, subroots, out =>
    let klc := lowerL k
    match v with
    | .obj vfields =>
      if isEnvelope vfields then
        flatGo aliases rest path subroots (flatLeafIns aliases klc v path subroots out)
      else do
        let newSub ←
          if k = "attributes".data then some (Subroots.node [])
          else subrootsGet subroots klc
        let inner ← flatGo aliases vfields (path ++ [klc]) newSub []
        let out2 := inner.foldl (fun o p => dictInsert o (lowerL k ++ '.' :: p.1) p.2) out
        flatGo aliases rest path subroots out2
    | _ => flatGo aliases rest path subroots (flatLeafIns aliases klc v path subroots out)
termination_by row _ _ _ => sizeOf row
decreasing_by all_goals simp_wf <;> omega

def make_flat (q : QQueryM) (row : List (List Char × JVal)) :
    Option (List (List Char × JVal)) :=
  flatGo q.aliases row [] q.subroots []

/-- `SF_DATETIME_PATTERN.match(data)`: the anchored match of
`[1-3]\d{3}-[01]\d-[0-3]\dT[0-2]\d:[0-5]\d:[0-6]\d.\d{3}\+0000$`
(the unescaped `.` matches any character). -/
def sfDatetimeMatch (l : List Char) : Bool :=
  let at_ := fun i => l.getD i '\x00'
  l.length = 28 &&
  ('1' ≤ at_ 0 && at_ 0 ≤ '3') && (at_ 1).isDigit && (at_ 2).isDigit && (at_ 3).isDigit &&
  at_ 4 = '-' && ('0' ≤ at_ 5 && at_ 5 ≤ '1') && (at_ 6).isDigit &&
  at_ 7 = '-' && ('0' ≤ at_ 8 && at_ 8 ≤ '3') && (at_ 9).isDigit &&
  at_ 10 = 'T' && ('0' ≤ at_ 11 && at_ 11 ≤ '2') && (at_ 12).isDigit &&
  at_ 13 = ':' && ('0' ≤ at_ 14 && at_ 14 ≤ '5') && (at_ 15).isDigit &&
  at_ 16 = ':' && ('0' ≤ at_ 17 && at_ 17 ≤ '6') && (at_ 18).isDigit &&
  (at_ 20).isDigit && (at_ 21).isDigit && (at_ 22).isDigit &&
  at_ 23 = '+' && at_ 24 = '0' && at_ 25 = '0' && at_ 26 = '0' && at_ 27 = '0'

/-- A cell of a flat output row after `fix_data_type`: either the JSON value
unchanged or a timezone-aware datetime, represented here by its (injectively
parsed) wire text. -/
inductive Cell where
  | raw (v : JVal)
  | datetimeOf (v : List Char)

/-- `fix_data_type(data)`. -/
def fix_data_type (v : JVal) : Cell :=
  match v with
  | .s txt => if sfDatetimeMatch txt then .datetimeOf txt else .raw v
  | _ => .raw v

/-- The response envelope as read by `parse_rest_response` /
`query_results`: `resp['totalSize']`, `resp['done']`, `resp['records']`,
and `resp['nextRecordsUrl']` (`none` = key absent). -/
structure RestResp where
  totalSize : Int
  done : Bool
  records : List JVal
  nextRecordsUrl : Option (List Char)

/-- An item yielded by `parse_rest_response`: the single `totalSize` of a
plain-count query, or one flat row. -/
inductive ResultItem where
  | countVal (n : Int)
  | row (cells : List Cell)

/-- Processing of one record inside the `for row_deep in resp['records']`
loop of `parse_rest_response`: the `AggregateResult` assertion, `_make_flat`,
alias lookup and `fix_data_type`.  (The source's
`assert all(not isinstance(x, dict) or x['done'] for x in row_flat)`
iterates over the dict's *keys*, which are strings, so it always passes and
needs no model.)  `none` models `AssertionError`/`KeyError`/`TypeError`. -/
def processRecord (q : QQueryM) (rec : JVal) : Option (List Cell) := do
  let rfields ← match rec with
    | .obj rfields => some rfields
    | _ => none
  let attrs ← match jGet rfields "attributes".data with
    | some (.obj attrs) => some attrs
    | _ => none
  let tv ← jGet attrs "type".data
  let isAggRow :=
    match tv with
    | .s t => t = "AggregateResult".data
    | _ => false
  if q.is_aggregation = isAggRow then do
    let row_flat ← flatGo q.aliases rfields [] q.subroots []
    let cells ← (q.aliases.zip q.fields).mapM fun p => jGet row_flat (lowerL p.1)
    some (cells.map fix_data_type)
  else none

/-- `QQuery.parse_rest_response(response, cursor)`: for a plain-count query
yield the single `totalSize`; otherwise yield the flat rows of every chunk,
following `nextRecordsUrl` through `cursor.query_more` while `done` is
false.  `fetch` stands for `cursor.query_more(url).json()`; its `none` also
covers the `ProgrammingError("Must get a cursor")` branch.  The fuel bounds
the chunk chain. -/
def parse_rest_response (q : QQueryM) (fetch : List Char → Option RestResp) :
    Nat → RestResp → Option (List ResultItem)
  | 0, _ => none
  | fuel + 1, resp =>
    if q.is_plain_count then
      match resp.records with
      | [] => some [.countVal resp.totalSize]  -- assert resp['records'] == []
      | _ => none
    else do
      let rows ← resp.records.mapM fun r => (processRecord q r).map ResultItem.row
      if !resp.done then
        match resp.nextRecordsUrl with
        | none => none  -- KeyError: resp['nextRecordsUrl']
        | some url => do
          let next ← fetch url
          let more ← parse_rest_response q fetch fuel next
          some (rows ++ more)
      else some rows

/-! ### `CursorWrapper.query_results` (backend/utils.py) — pagination -/

/-- One decoded chunk as used by `query_results`. -/
structure QRChunk where
  records : List JVal
  done : Bool
  nextRecordsUrl : Option (List Char)

/-- The per-record reshaping at the top of the `for rec in results['records']`
loop: an `AggregateResult` record is replaced by the list of its
`annotation_select` values when the query object carries that attribute
(`annSelect` is `none` when `hasattr(self.query, 'annotation_select')` is
false).  `none` models `KeyError`/`TypeError`/`AssertionError`. -/
def qrStep (annSelect : Option (List (List Char))) (rec : JVal) : Option JVal := do
  let rfields ← match rec with
    | .obj rfields => some rfields
    | _ => none
  let attrs ← match jGet rfields "attributes".data with
    | some (.obj attrs) => some attrs
    | _ => none
  let tv ← jGet attrs "type".data
  let isAggRec :=
    match tv with
    | .s t => t = "AggregateResult".data
    | _ => false
  match annSelect with
  | some ann =>
    if isAggRec = true then
      -- assert len(rec) - 1 == len(list(annotation_select.items()))
      if rfields.length - 1 = ann.length then (ann.mapM fun k => jGet rfields k).map .arr
      else none
    else some rec
  | none => some rec

/-- `CursorWrapper.query_results(results)`: yield every record of the
current chunk, then while `done` is false fetch `nextRecordsUrl` via
`query_more` and continue.  Returns the yielded records together with the
list of URLs fetched, in order (the fetch trace).  The fuel bounds the chunk
chain; `none` models a raised exception (`KeyError`, failed fetch). -/
def query_results (annSelect : Option (List (List Char)))
    (fetch : List Char → Option QRChunk) :
    Nat → QRChunk → Option (List JVal × List (List Char))
  | 0, _ => none
  | fuel + 1, results => do
    let out ← results.records.mapM (qrStep annSelect)
    if results.done then some (out, [])
    else
      match results.nextRecordsUrl with
      | none => none  -- KeyError: results['nextRecordsUrl']
      | some url => do
        let next ← fetch url
        let (more, urls) ← query_results annSelect fetch fuel next
        some (out ++ more, url :: urls)

/-! ### dbapi/driver.py — error raising, 401 retry, composite requests -/

/-- One element of the vendor's JSON error envelope `[{errorCode, message, ...}]`. -/
structure ErrEntry where
  errorCode : List Char
  message : List Char
deriving DecidableEq, Repr

/-- The slice of a `requests` response that `handle_api_exceptions_inter`
and `raise_errors` read.  `json_content` models
`'json' in response.headers.get('Content-Type','') and response.text`;
`errors` is the decoded body when it is a nonempty list of objects carrying
`errorCode` (`errors = []` collapses every other body shape, which the
source treats uniformly through its `isinstance(data, list) and data and
'errorCode' in data[0]` guard). -/
structure Resp where
  method : List Char
  status_code : Nat
  json_content : Bool
  errors : List ErrEntry
deriving DecidableEq, Repr

/-- `requests.Response.ok`: true below the 4xx range. -/
def respOk (r : Resp) : Bool := r.status_code < 400

/-- The exceptions this layer can raise. -/
inductive Raised where
  | operational (status : Nat)
  | salesforce (message : List Char) (code : List Char) (withUrl : Bool)
  | internal (msg : List Char)
  | attributeError
  | indexError
deriving DecidableEq, Repr

/-- Result of `RawConnection.raise_errors`: either a raised exception or the
silent `return None` of the idempotent-delete branch (with the messages
passed to `warn_sf`).  A raised `salesforce` error carries the first error
entry's message; the whole response — and with it the vendor `errorCode` —
is attached to the exception object, which the model records in the `code`
component.  `withUrl` is the `['method+url']` verbosity argument of the
`NOT_FOUND`/`METHOD_NOT_ALLOWED` branch. -/
inductive RaiseOut where
  | raised (e : Raised)
  | noopWarn (messages : List (List Char))
deriving DecidableEq, Repr

/-- `RawConnection.raise_errors(response)`. -/
def raise_errors (r : Resp) : RaiseOut :=
  match r.json_content, r.errors with
  | true, e :: _ =>
    if r.status_code = 404 && r.method = "DELETE".data &&
        (e.errorCode = "ENTITY_IS_DELETED".data ||
         e.errorCode = "INVALID_CROSS_REFERENCE_KEY".data) then
      .noopWarn [e.message, "Object is deleted before delete or update".data]
    else if e.errorCode = "NOT_FOUND".data || e.errorCode = "METHOD_NOT_ALLOWED".data then
      .raised (.salesforce e.message e.errorCode true)
    else
      .raised (.salesforce e.message e.errorCode false)
  | _, _ => .raised (.operational r.status_code)

/-- The tail of `handle_api_exceptions_inter` after the 401 handling:
`if response.ok: return response` else `self.raise_errors(response)` —
whose `None` return (idempotent delete) makes the whole call return `None`. -/
def outcomeOf (r : Resp) : Except Raised (Option Resp) :=
  if respOk r then .ok (some r)
  else
    match raise_errors r with
    | .raised e => .error e
    | .noopWarn _ => .ok none

/-- The authentication state seen by `SalesforceAuth.reauthenticate`:
dynamic connections refuse to reauthenticate. -/
structure AuthState where
  dynamic : Bool

/-- The observable trace of one `handle_api_exceptions_inter` call:
how many `session.request` calls and token-refresh round-trips
(`SalesforceAuth.authenticate`) happened, and the final outcome. -/
structure CallTrace where
  requests : Nat
  authCalls : Nat
  outcome : Except Raised (Option Resp)
deriving Repr

/-- `RawConnection.handle_api_exceptions_inter(method, ...)`.  `attempts`
supplies the responses the session would return for the successive
`session.request` calls (the first element answers the initial request, the
second the retried one).  The overall `none` models the remaining raised
exceptions: a transport timeout (empty list where a response is consumed),
`response.json()[0]` on an undecodable 401 body, and the `DatabaseError`
of `reauthenticate()` on a dynamic connection.
On 401 with `errorCode == 'INVALID_SESSION_ID'` the token is refreshed once
(`del_token` + one `authenticate` round-trip) and the same request is
retried exactly once; every other path issues no refresh. -/
def handle_api_exceptions_inter (auth : AuthState) (attempts : List Resp) :
    Option CallTrace :=
  match attempts with
  | [] => none
  | first :: rest =>
    if first.status_code = 401 then
      match first.errors with
      | [] => none
      | e :: _ =>
        if e.errorCode = "INVALID_SESSION_ID".data then
          if auth.dynamic then none
          else
            match rest with
            | [] => none
            | retry :: _ => some ⟨2, 1, outcomeOf retry⟩
        else some ⟨1, 0, outcomeOf first⟩
    else some ⟨1, 0, outcomeOf first⟩

/-! ### backend/utils.py — update/delete wiring -/

/-- The durable outputs of one write call: how many HTTP requests the write
itself issued and the final `self.rowcount` (`none` = the Python `None` it
was reset to at the start of `CursorWrapper.execute`). -/
structure WriteResult where
  requests : Nat
  rowcount : Option Int
deriving DecidableEq, Repr

/-- `CursorWrapper.execute_update(query)` with the primary keys already
resolved by `get_pks_from_query` and `ret` the outcome of the one HTTP call
of the non-empty branches.  With no pks the method returns before any
request — and before the `self.rowcount = 1` line, so `rowcount` keeps the
`None` set by `execute`. -/
def execute_update (pks : List (List Char)) (ret : Except Raised (Option Resp)) :
    Except Raised WriteResult :=
  if pks.isEmpty then .ok ⟨0, none⟩
  else
    match ret with
    | .error e => .error e
    | .ok _ => .ok ⟨1, some 1⟩

/-- `CursorWrapper.execute_delete(query)` with resolved pks; `ret` is the
outcome of the single-record DELETE (where `.ok none` is the suppressed
404), `comp` the `httpStatusCode` column of the composite response of the
multi-record branch.  `self.rowcount = 1 if (ret and ret.status_code == 204)
else 0` uses the truthiness of `ret` — `None` (suppressed 404) counts 0. -/
def execute_delete (pks : List (List Char)) (ret : Except Raised (Option Resp))
    (comp : List Nat) : Except Raised WriteResult :=
  if pks.isEmpty then .ok ⟨0, some 0⟩
  else if pks.length = 1 then
    match ret with
    | .error e => .error e
    | .ok r =>
      let hit204 : Bool := match r with | some rr => rr.status_code == 204 | none => false
      .ok ⟨1, some (if hit204 then 1 else 0)⟩
  else
    match ret with
    | .error e => .error e
    | .ok _ => .ok ⟨1, some ((comp.filter (fun s => s = 204)).length : Int)⟩

/-! ### `composite_request` and the synthetic request/response pair -/

/-- `class FakeReq` (driver.py): the source's `__init__` also takes a
`context` argument but assigns `self.context = None` regardless, so it is
omitted here. -/
structure FakeReq where
  method : List Char
  url : List Char
  body : Option (List ErrEntry)
  headers : List (List Char × List Char)
deriving DecidableEq, Repr

/-- A loose value universe for the positional arguments of the `FakeResp`
constructor call, whose order does not match the class definition. -/
inductive PyVal where
  | strv (v : List Char)
  | reqv (r : FakeReq)
  | hdrsv (h : List (List Char × List Char))
deriving DecidableEq, Repr

/-- `class FakeResp: def __init__(self, status_code, headers, text, request)`
— the fields in this (definition) order.  `composite_request` calls it as
`FakeResp(status_code, json.dumps(body), bad_req, bad_resp_headers)`,
i.e. with the text second and the request last. -/
structure FakeResp where
  status_code : Nat
  headers : PyVal
  text : PyVal
  request : PyVal
deriving DecidableEq, Repr

/-- One subrequest of a composite POST body. -/
structure CSubRequest where
  method : List Char
  url : List Char
  body : Option (List ErrEntry)
  referenceId : List Char
  httpHeaders : List (List Char × List Char)
deriving DecidableEq, Repr

/-- One element of `compositeResponse`.  On the error paths modelled here
each body is the vendor error list (`[{errorCode, message}]`). -/
structure CSubResp where
  httpStatusCode : Nat
  body : List ErrEntry
  referenceId : List Char
  httpHeaders : List (List Char × List Char)
deriving DecidableEq, Repr

/-- The decoded composite POST response together with its `Content-Type`
header (copied into the synthetic response). -/
structure CompositePost where
  contentType : List Char
  compositeResponse : List CSubResp
deriving DecidableEq, Repr

/-- The filter of the `bad_responses` dict comprehension:
`not (x['httpStatusCode'] == 400 and x['body'][0]['errorCode'] in
('PROCESSING_HALTED', 'ALL_OR_NONE_OPERATION_ROLLED_BACK'))`;
`none` models the `IndexError` on an empty 400 body. -/
def isRollback (x : CSubResp) : Option Bool :=
  if x.httpStatusCode = 400 then
    match x.body with
    | e :: _ => some (e.errorCode = "PROCESSING_HALTED".data ||
                      e.errorCode = "ALL_OR_NONE_OPERATION_ROLLED_BACK".data)
    | [] => none
  else some false

/-- Build `bad_responses` in index order. -/
def badResponsesGo : List (Nat × CSubResp) → Option (List (Nat × CSubResp))
  | [] => some []
  | (i, x) :: rest => do
    let p ← isRollback x
    let r ← badResponsesGo rest
    some (if p then r else (i, x) :: r)

/-- A stand-in for `json.dumps(body)` (with the `referenceId` fields the
source adds): the error path below crashes before this text is ever read,
so only some concrete rendering is needed. -/
def dumpErrors (body : List ErrEntry) : List Char :=
  (body.map fun e => e.errorCode ++ ':' :: e.message ++ [';']).flatten

/-- Python `dict.update` on a header mapping: overwrite or append one key. -/
def headerUpdate (hs : List (List Char × List Char)) (k v : List Char) :
    List (List Char × List Char) :=
  if hs.any (fun p => p.1 = k) then hs.map fun p => if p.1 = k then (k, v) else p
  else hs ++ [(k, v)]

/-- The first statement of `raise_errors`, `method = response.request.method`,
evaluated on a synthetic `FakeResp`: reading `.method` of anything that is
not a request object raises `AttributeError`.  (A correctly assembled
`FakeResp` would continue into the rest of `raise_errors`; the one built by
`composite_request` never gets past this line.) -/
def fakeRespMethod (r : FakeResp) : Except Raised (List Char) :=
  match r.request with
  | .reqv req => .ok req.method
  | _ => .error .attributeError

/-- Outcome of `RawConnection.composite_request`. -/
inductive CompositeOutcome where
  | okResp (resp : CompositePost)
  | raisedEarly (e : Raised)
  | reconstructed (fake : FakeResp) (raiseStep : Except Raised (List Char))
deriving Repr

/-- `RawConnection.composite_request(data)` applied to the decoded response
`resp` of the composite POST.  On full success the response is returned; on
failure the subresponses that are not 400-with-rollback-placeholder are
collected, anything but exactly one of them is an `InternalError`, and from
the single real failure a synthetic request/response pair is built and
handed to `raise_errors` — `reconstructed` records that synthetic response
and what the first line of `raise_errors` does with it. -/
def composite_request (data : List CSubRequest) (resp : CompositePost) :
    CompositeOutcome :=
  let comp := resp.compositeResponse
  if comp.all (fun x => x.httpStatusCode < 400) then .okResp resp
  else
    match badResponsesGo comp.enum with
    | none => .raisedEarly .indexError
    | some bad =>
      match bad with
      | [(bad_i, bad_response)] =>
        match data.get? bad_i with
        | none => .raisedEarly .indexError  -- data[bad_i]
        | some bad_request =>
          let bad_req : FakeReq :=
            ⟨bad_request.method, bad_request.url, bad_request.body,
             bad_request.httpHeaders⟩
          let bad_resp_headers :=
            headerUpdate bad_response.httpHeaders "Content-Type".data resp.contentType
          -- `FakeResp(bad_response['httpStatusCode'], json.dumps(body), bad_req,
          --           bad_resp_headers)` matched positionally against
          -- `__init__(self, status_code, headers, text, request)`:
          let fake : FakeResp :=
            { status_code := bad_response.httpStatusCode,
              headers := .strv (dumpErrors bad_response.body),
              text := .reqv bad_req,
              request := .hdrsv bad_resp_headers }
          .reconstructed fake (fakeRespMethod fake)
      | _ =>
        .raisedEarly
          (.internal "Too much or too many subrequests with an individual error".data)

/-! ### dbapi/driver.py `Cursor.execute` dispatch -/

/-- The cursor fields reset by `Cursor._clean`. -/
structure DrvCursor where
  description : Option Unit
  rowcount : Int
  rownumber : Option Nat
  messages : List (List Char)
  lastrowid : Option (List Char)
  next_records_url : Option (List Char)
  executed : Bool
deriving DecidableEq, Repr

/-- `Cursor._clean` (without the final `_check`): reset all statement state. -/
def cursor_clean (_c : DrvCursor) : DrvCursor :=
  { description := none, rowcount := -1, rownumber := none, messages := [],
    lastrowid := none, next_records_url := none, executed := false }

/-- `operation.split(None, 1)[0]`: first whitespace-delimited token;
`none` models the `IndexError` on an all-whitespace operation. -/
def firstToken (l : List Char) : Option (List Char) :=
  match l.dropWhile isSpaceChar with
  | [] => none
  | t => some (t.takeWhile fun c => !isSpaceChar c)

/-- The decoded body of `execute_select`'s query GET.  The outer `Option` of
`nextRecordsUrlKey` distinguishes an absent key (Python `KeyError`) from a
JSON `null`. -/
structure SelectData where
  totalSize : Int
  records : List JVal
  nextRecordsUrlKey : Option (Option (List Char))

inductive ExecOutcome where
  | ok
  | programmingError
  | interfaceError
  | indexError
  | keyError
  | httpError
deriving DecidableEq, Repr

structure ExecResult where
  state : DrvCursor
  outcome : ExecOutcome
  httpRequests : Nat
deriving Repr

/-- `Cursor.execute(operation)`: `_clean` first (resets, then `_check`
raises `InterfaceError` on a closed cursor), then dispatch on the first
token uppercased — only `SELECT` proceeds to `execute_select` (one GET,
supplied as `selectResp`, `none` when that call raised); anything else
raises `ProgrammingError` without touching the network. -/
def cursor_execute (connected : Bool) (c : DrvCursor) (operation : List Char)
    (selectResp : Option SelectData) : ExecResult :=
  let c1 := cursor_clean c
  if !connected then ⟨c1, .interfaceError, 0⟩
  else
    match firstToken operation with
    | none => ⟨c1, .indexError, 0⟩
    | some t =>
      if toUpperL t = "SELECT".data then
        match selectResp with
        | none => ⟨c1, .httpError, 1⟩
        | some d =>
          let c2 := { c1 with description := some (), rowcount := d.totalSize,
                              rownumber := some 0 }
          match d.nextRecordsUrlKey with
          | none => ⟨c2, .keyError, 1⟩
          | some u => ⟨{ c2 with next_records_url := u, executed := true }, .ok, 1⟩
      else ⟨c1, .programmingError, 0⟩

/-! ### Decomposition vocabulary for the split_subquery structure claim -/

/-- Written from the spec's description of the flattened output: the
top-level pieces joined with one `&` placeholder between consecutive
pieces (the pieces themselves carry the surrounding parentheses). -/
def joinAmp (ps : List (List Char)) : List Char :=
  (List.intersperse ['&'] ps).flatten

/-- Written from the spec's description of the original text: the same
pieces with each excised subquery span spliced back between them. -/
def spliceSpans : List (List Char) → List (List Char) → List Char
  | [], _ => []
  | p :: ps, [] => p ++ spliceSpans ps []
  | p :: ps, inner :: inners => p ++ inner ++ spliceSpans ps inners


/-! ## Theorems -/

theorem matchBody_reconstruct (l : List Char) :
    ∀ content n, matchBody l = some (content, n) → l = content ++ '\'' :: l.drop n := by
  induction l using matchBody.induct with
  | case1 => intro c n h; simp [matchBody.eq_1] at h
  | case2 tail =>
    intro c n h
    rw [matchBody.eq_2] at h
    simp only [Option.some.injEq, Prod.mk.injEq] at h
    obtain ⟨h1, h2⟩ := h
    subst h1
    rw [← h2]
    simp
  | case3 c rest hcond ih =>
    intro content n h
    rw [matchBody.eq_3, if_pos hcond] at h
    cases hmb : matchBody rest with
    | none => rw [hmb] at h; simp at h
    | some p =>
      rw [hmb] at h
      simp only [Option.map_some', Option.some.injEq, Prod.mk.injEq] at h
      obtain ⟨h1, h2⟩ := h
      subst h1
      rw [← h2]
      have hrec := ih p.1 p.2 (by rw [hmb])
      simp only [List.drop_succ_cons]
      conv_lhs => rw [hrec]
      simp
  | case4 c rest hcond =>
    intro content n h
    rw [matchBody.eq_3, if_neg hcond] at h
    exact absurd h (by simp)
  | case5 =>
    intro content n h
    simp [matchBody.eq_4] at h
  | case6 c rest h1 h2 h3 ih =>
    intro content n h
    rw [matchBody.eq_5 c rest h1 h2 h3] at h
    cases hmb : matchBody rest with
    | none => rw [hmb] at h; simp at h
    | some p =>
      rw [hmb] at h
      simp only [Option.map_some', Option.some.injEq, Prod.mk.injEq] at h
      obtain ⟨hc, hn⟩ := h
      subst hc
      rw [← hn]
      have hrec := ih p.1 p.2 (by rw [hmb])
      simp only [List.drop_succ_cons]
      conv_lhs => rw [hrec]
      simp

theorem escBackslash_cons (c : Char) (l : List Char) :
    escBackslash (c :: l) = (if c = '\\' then ['\\', '\\'] else [c]) ++ escBackslash l := by
  simp [escBackslash]

theorem escQuote_cons (c : Char) (l : List Char) :
    escQuote (c :: l) = (if c = '\'' then ['\\', '\''] else [c]) ++ escQuote l := by
  simp [escQuote]

theorem pyEscape_cons_plain (c : Char) (l : List Char) (h1 : ¬c = '\\') (h2 : ¬c = '\'') :
    pyEscape (c :: l) = c :: pyEscape l := by
  simp [pyEscape, escBackslash_cons, escQuote_cons, h1, h2]

theorem pyEscape_cons_bs (l : List Char) :
    pyEscape ('\\' :: l) = '\\' :: '\\' :: pyEscape l := by
  simp [pyEscape, escBackslash_cons, escQuote_cons]

theorem pyEscape_cons_quote (l : List Char) :
    pyEscape ('\'' :: l) = '\\' :: '\'' :: pyEscape l := by
  simp [pyEscape, escBackslash_cons, escQuote_cons]

theorem pyEscape_nil : pyEscape [] = [] := rfl

theorem matchBody_escape (l : List Char) :
    ∀ content n, matchBody l = some (content, n) → pyEscape (bsUnescape content) = content := by
  induction l using matchBody.induct with
  | case1 => intro c n h; simp [matchBody.eq_1] at h
  | case2 tail =>
    intro c n h
    rw [matchBody.eq_2] at h
    simp only [Option.some.injEq, Prod.mk.injEq] at h
    obtain ⟨h1, _⟩ := h
    subst h1
    rfl
  | case3 c rest hcond ih =>
    intro content n h
    rw [matchBody.eq_3, if_pos hcond] at h
    cases hmb : matchBody rest with
    | none => rw [hmb] at h; simp at h
    | some p =>
      rw [hmb] at h
      simp only [Option.map_some', Option.some.injEq, Prod.mk.injEq] at h
      obtain ⟨h1, _⟩ := h
      subst h1
      have hp := ih p.1 p.2 (by rw [hmb])
      rcases hc : (decide (c = '\\') || decide (c = '\'')) with _ | _
      · rw [hc] at hcond; exact absurd hcond (by simp)
      · simp only [Bool.or_eq_true, decide_eq_true_eq] at hc
        rcases hc with hc | hc <;> subst hc
        · rw [show bsUnescape ('\\' :: '\\' :: p.1) = '\\' :: bsUnescape p.1 by
            simp [bsUnescape]]
          rw [pyEscape_cons_bs, hp]
        · rw [show bsUnescape ('\\' :: '\'' :: p.1) = '\'' :: bsUnescape p.1 by
            simp [bsUnescape]]
          rw [pyEscape_cons_quote, hp]
  | case4 c rest hcond =>
    intro content n h
    rw [matchBody.eq_3, if_neg hcond] at h
    exact absurd h (by simp)
  | case5 =>
    intro content n h
    simp [matchBody.eq_4] at h
  | case6 c rest h1 h2 h3 ih =>
    intro content n h
    rw [matchBody.eq_5 c rest h1 h2 h3] at h
    cases hmb : matchBody rest with
    | none => rw [hmb] at h; simp at h
    | some p =>
      rw [hmb] at h
      simp only [Option.map_some', Option.some.injEq, Prod.mk.injEq] at h
      obtain ⟨hc1, _⟩ := h
      subst hc1
      have hp := ih p.1 p.2 (by rw [hmb])
      have hcbs : ¬c = '\\' := by
        intro hceq
        cases rest with
        | nil => exact h3 hceq rfl
        | cons a b => exact h2 a b hceq rfl
      have hcq : ¬c = '\'' := fun hceq => h1 hceq
      have hbs : bsUnescape (c :: p.1) = c :: bsUnescape p.1 :=
        bsUnescape.eq_2 c p.1 (fun _ _ hceq _ => hcbs hceq)
      rw [hbs, pyEscape_cons_plain c _ hcbs hcq, hp]

theorem joinQuoted_cons_head (c : Char) (p : List Char) (ps qs : List (List Char)) :
    joinQuoted ((c :: p) :: ps) qs = c :: joinQuoted (p :: ps) qs := by
  cases qs with
  | nil => rfl
  | cons q qs' => simp [joinQuoted]

theorem scanParts_reconstruct (l : List Char) :
    joinQuoted ((scanParts l).1 :: ((scanParts l).2.map Prod.snd))
      ((scanParts l).2.map Prod.fst) = l := by
  induction l using scanParts.induct with
  | case1 => rw [scanParts.eq_1]; rfl
  | case2 rest content n hmb ih =>
    rw [scanParts.eq_2, hmb]
    simp only [List.map_cons]
    rw [show joinQuoted ([] :: (bsUnescape content, (scanParts (List.drop n rest)).1).2 ::
          ((scanParts (List.drop n rest)).2.map Prod.snd))
          ((bsUnescape content, (scanParts (List.drop n rest)).1).1 ::
          ((scanParts (List.drop n rest)).2.map Prod.fst)) =
        [] ++ ['\''] ++ pyEscape (bsUnescape content) ++ ['\''] ++
          joinQuoted ((scanParts (List.drop n rest)).1 ::
            ((scanParts (List.drop n rest)).2.map Prod.snd))
            ((scanParts (List.drop n rest)).2.map Prod.fst) from rfl]
    rw [ih, matchBody_escape rest content n hmb]
    have := matchBody_reconstruct rest content n hmb
    simp only [List.nil_append, List.singleton_append, List.cons_append]
    conv_rhs => rw [this]
    simp
  | case3 rest hmb ih =>
    rw [scanParts.eq_2, hmb]
    simp only []
    rw [joinQuoted_cons_head]
    rw [ih]
  | case4 c rest hne ih =>
    rw [scanParts.eq_3 c rest hne]
    simp only []
    rw [joinQuoted_cons_head]
    rw [ih]

theorem splitAmp_cons_ne (c : Char) (l : List Char) (h : c = '@' → False) :
    splitAmp (c :: l) =
      match splitAmp l with
      | p :: ps => (c :: p) :: ps
      | [] => [[c]] :=
  splitAmp.eq_3 c l h

theorem splitAmp_append (p : List Char) (hp : '@' ∉ p) (l q : List Char)
    (qs : List (List Char)) (hl : splitAmp l = q :: qs) :
    splitAmp (p ++ l) = (p ++ q) :: qs := by
  induction p with
  | nil => simpa using hl
  | cons c p' ih =>
    have hc : c = '@' → False := fun hceq => hp (by simp [hceq])
    have hp' : '@' ∉ p' := fun hm => hp (List.mem_cons_of_mem _ hm)
    rw [List.cons_append, splitAmp_cons_ne c _ hc, ih hp']
    rfl

theorem splitAmp_marked (items : List (List Char × List Char)) :
    ∀ p0 : List Char, '@' ∉ p0 → (∀ it ∈ items, '@' ∉ it.2) →
    splitAmp (p0 ++ (items.map fun p => '@' :: p.2).flatten) = p0 :: items.map Prod.snd := by
  induction items with
  | nil =>
    intro p0 h0 _
    have := splitAmp_append p0 h0 [] [] [] (by simp [splitAmp])
    simpa using this
  | cons it rest ih =>
    intro p0 h0 h
    have hit : '@' ∉ it.2 := h it (by simp)
    have hrest : ∀ x ∈ rest, '@' ∉ x.2 := fun x hx => h x (by simp [hx])
    have inner := ih it.2 hit hrest
    have hamp : splitAmp ('@' :: (it.2 ++ (rest.map fun p => '@' :: p.2).flatten)) =
        [] :: it.2 :: rest.map Prod.snd := by
      rw [splitAmp.eq_2, inner]
    have := splitAmp_append p0 h0 _ [] (it.2 :: rest.map Prod.snd) hamp
    simpa using this

theorem allowedOut_no_amp (p : List Char) (h : allowedOut p = true) : '@' ∉ p := by
  intro hm
  have hall := List.all_eq_true.mp h _ hm
  exact absurd hall (by decide)

/-- C5: for every SOQL text whose quoted literals use only the `\\` and `\'`
escapes (equivalently: on which `mark_quoted_strings` succeeds),
`subst_quoted_strings` applied to the marked text and the collected
parameters returns the original string — the pair is the identity. -/
theorem c5_mark_subst_roundtrip (sql marked : List Char) (params : List (List Char))
    (h : mark_quoted_strings sql = some (marked, params)) :
    subst_quoted_strings marked params = some sql := by
  simp only [mark_quoted_strings] at h
  split at h
  case isFalse => exact absurd h (by simp)
  case isTrue hcond =>
    simp only [Option.some.injEq, Prod.mk.injEq] at h
    obtain ⟨hm, hp⟩ := h
    simp only [Bool.and_eq_true, List.all_eq_true] at hcond
    obtain ⟨hc1, hc2⟩ := hcond
    have hsplit := splitAmp_marked (scanParts sql).2 (scanParts sql).1
      (allowedOut_no_amp _ hc1)
      (fun it hit => allowedOut_no_amp _ (hc2 it hit))
    unfold subst_quoted_strings
    rw [← hm, hsplit]
    have hlen : ((scanParts sql).1 :: (scanParts sql).2.map Prod.snd).length =
        params.length + 1 := by
      simp [← hp]
    rw [if_pos hlen, ← hp]
    rw [scanParts_reconstruct]

/-- Witness for C5 at the concrete input `a'bc'd` (a vector from the
source's own test suite). -/
theorem c5_witness :
    subst_quoted_strings "a@d".data ["bc".data] = some "a'bc'd".data :=
  c5_mark_subst_roundtrip "a'bc'd".data "a@d".data ["bc".data] (by
    simp [mark_quoted_strings, scanParts.eq_1, scanParts.eq_2, scanParts.eq_3,
      matchBody.eq_1, matchBody.eq_2, matchBody.eq_3, matchBody.eq_4, matchBody.eq_5,
      bsUnescape, allowedOut, allowedOutChar, isWordChar, isSpaceChar, String.data])

/-- C10: `Cursor.execute` first resets all prior statement state via
`_clean`, and for every operation whose first whitespace-delimited token,
uppercased, is not `SELECT`, it raises `ProgrammingError` without issuing
any HTTP request. -/
theorem c10_execute_non_select (c : DrvCursor) (operation t : List Char)
    (selectResp : Option SelectData)
    (ht : firstToken operation = some t) (hsel : ¬toUpperL t = "SELECT".data) :
    cursor_execute true c operation selectResp =
      ⟨⟨none, -1, none, [], none, none, false⟩, .programmingError, 0⟩ := by
  simp [cursor_execute, cursor_clean, ht, hsel]

/-- Witness for C10 at a concrete `DELETE` statement on a dirty cursor. -/
theorem c10_witness :
    firstToken "DELETE FROM Contact".data = some "DELETE".data ∧
    cursor_execute true ⟨some (), 7, some 2, ["m".data], some "id".data, some "u".data, true⟩
        "DELETE FROM Contact".data none =
      ⟨⟨none, -1, none, [], none, none, false⟩, .programmingError, 0⟩ :=
  ⟨by decide, c10_execute_non_select _ _ "DELETE".data none (by decide) (by decide)⟩

/-- C2: a 401 whose decoded error code is `INVALID_SESSION_ID` performs
exactly one token refresh and exactly one retry of the same request; a 401
with any other error code performs no refresh and no retry; when the
retried request fails again, that failure propagates through `raise_errors`
with still only one refresh; and on no input whatsoever does the call
perform more than one refresh or more than two requests — the retry never
loops. -/
theorem c2_auth_retry (first retry : Resp) (e : ErrEntry) (tl : List ErrEntry)
    (h401 : first.status_code = 401) (herr : first.errors = e :: tl) :
    (e.errorCode = "INVALID_SESSION_ID".data →
      handle_api_exceptions_inter ⟨false⟩ [first, retry] = some ⟨2, 1, outcomeOf retry⟩) ∧
    (¬e.errorCode = "INVALID_SESSION_ID".data →
      handle_api_exceptions_inter ⟨false⟩ [first, retry] = some ⟨1, 0, outcomeOf first⟩) ∧
    (e.errorCode = "INVALID_SESSION_ID".data → respOk retry = false →
      ∀ er, raise_errors retry = .raised er →
      handle_api_exceptions_inter ⟨false⟩ [first, retry] = some ⟨2, 1, .error er⟩) ∧
    (∀ auth attempts trace, handle_api_exceptions_inter auth attempts = some trace →
      trace.authCalls ≤ 1 ∧ trace.requests ≤ 2) := by
  refine ⟨?_, ?_, ?_, ?_⟩
  · intro hcode
    simp [handle_api_exceptions_inter, h401, herr, hcode]
  · intro hcode
    simp [handle_api_exceptions_inter, h401, herr, hcode]
  · intro hcode hnotok er hraise
    simp [handle_api_exceptions_inter, h401, herr, hcode, outcomeOf, hnotok, hraise]
  · intro auth attempts trace
    rcases attempts with _ | ⟨f, rest⟩
    · intro htr; simp [handle_api_exceptions_inter] at htr
    · simp only [handle_api_exceptions_inter]
      split
      · split
        · intro htr; simp at htr
        · split
          · split
            · intro htr; simp at htr
            · split
              · intro htr; simp at htr
              · intro htr
                injection htr with h
                subst h
                exact ⟨by simp, by simp⟩
          · intro htr
            injection htr with h
            subst h
            exact ⟨by simp, by simp⟩
      · intro htr
        injection htr with h
        subst h
        exact ⟨by simp, by simp⟩

/-- Witness for C2: a concrete 401/INVALID_SESSION_ID followed by a
successful retry — one refresh, two requests. -/
theorem c2_witness :
    handle_api_exceptions_inter ⟨false⟩
        [⟨"GET".data, 401, true, [⟨"INVALID_SESSION_ID".data, "expired".data⟩]⟩,
         ⟨"GET".data, 200, false, []⟩] =
      some ⟨2, 1, outcomeOf ⟨"GET".data, 200, false, []⟩⟩ :=
  (c2_auth_retry ⟨"GET".data, 401, true, [⟨"INVALID_SESSION_ID".data, "expired".data⟩]⟩
    ⟨"GET".data, 200, false, []⟩ ⟨"INVALID_SESSION_ID".data, "expired".data⟩ []
    rfl rfl).1 rfl

/-- C3: a DELETE answered 404 with errorCode `ENTITY_IS_DELETED` or
`INVALID_CROSS_REFERENCE_KEY` raises nothing: `raise_errors` records a
warning and returns `None`, and the single-record delete completes with
`rowcount = 0` (the record was already absent).  Every other non-ok
response whose body decodes to a vendor error list raises a typed
`SalesforceError` carrying that first error's message and errorCode. -/
theorem c3_idempotent_delete (r : Resp) (e : ErrEntry) (tl : List ErrEntry)
    (hjson : r.json_content = true) (herr : r.errors = e :: tl) :
    (r.method = "DELETE".data → r.status_code = 404 →
      (e.errorCode = "ENTITY_IS_DELETED".data ∨
       e.errorCode = "INVALID_CROSS_REFERENCE_KEY".data) →
      raise_errors r =
        .noopWarn [e.message, "Object is deleted before delete or update".data] ∧
      ∀ pk comp, execute_delete [pk] (outcomeOf r) comp = .ok ⟨1, some 0⟩) ∧
    (respOk r = false →
      ¬(r.status_code = 404 ∧ r.method = "DELETE".data ∧
        (e.errorCode = "ENTITY_IS_DELETED".data ∨
         e.errorCode = "INVALID_CROSS_REFERENCE_KEY".data)) →
      raise_errors r = .raised (.salesforce e.message e.errorCode
        (e.errorCode = "NOT_FOUND".data || e.errorCode = "METHOD_NOT_ALLOWED".data))) := by
  constructor
  · intro hm h404 hcode
    have hraise : raise_errors r =
        .noopWarn [e.message, "Object is deleted before delete or update".data] := by
      unfold raise_errors
      rw [hjson, herr]
      simp only [h404, hm]
      rcases hcode with hc | hc <;> simp [hc]
    refine ⟨hraise, ?_⟩
    intro pk comp
    have hok : respOk r = false := by simp [respOk, h404]
    simp [execute_delete, outcomeOf, hok, hraise]
  · intro hnotok hnotcase
    simp only [raise_errors, hjson, herr]
    have hcond : ¬(r.status_code = 404 && r.method = "DELETE".data &&
        (e.errorCode = "ENTITY_IS_DELETED".data ||
         e.errorCode = "INVALID_CROSS_REFERENCE_KEY".data)) = true := by
      simp only [Bool.and_eq_true, Bool.or_eq_true, decide_eq_true_eq]
      intro hca
      exact hnotcase ⟨by tauto, by tauto, by tauto⟩
    rw [if_neg hcond]
    by_cases hnf : e.errorCode = "NOT_FOUND".data || e.errorCode = "METHOD_NOT_ALLOWED".data
    · rw [if_pos ?_]
      · rw [hnf]
      · simpa using hnf
    · rw [if_neg ?_]
      · rw [show (e.errorCode = "NOT_FOUND".data || e.errorCode = "METHOD_NOT_ALLOWED".data) = false by simpa using hnf]
      · simpa using hnf

/-- Witness for C3: a concrete already-deleted 404. -/
theorem c3_witness :
    raise_errors ⟨"DELETE".data, 404, true, [⟨"ENTITY_IS_DELETED".data, "gone".data⟩]⟩ =
      .noopWarn ["gone".data, "Object is deleted before delete or update".data] ∧
    execute_delete ["003x".data]
        (outcomeOf ⟨"DELETE".data, 404, true, [⟨"ENTITY_IS_DELETED".data, "gone".data⟩]⟩) [] =
      .ok ⟨1, some 0⟩ :=
  have h := (c3_idempotent_delete
    ⟨"DELETE".data, 404, true, [⟨"ENTITY_IS_DELETED".data, "gone".data⟩]⟩
    ⟨"ENTITY_IS_DELETED".data, "gone".data⟩ [] rfl rfl).1 rfl rfl (Or.inl rfl)
  ⟨h.1, h.2 "003x".data []⟩

/-- Helper: the accumulator loop of `List.mapM` over `Option` returns all
elements when the step fixes every element. -/
theorem mapM_loop_some_id {α : Type} (f : α → Option α) :
    ∀ (l : List α) (acc : List α), (∀ x ∈ l, f x = some x) →
      List.mapM.loop f l acc = some (acc.reverse ++ l) := by
  intro l
  induction l with
  | nil => intro acc _; rw [List.mapM.loop]; simp
  | cons a rest ih =>
    intro acc h
    rw [List.mapM.loop, h a (by simp)]
    simp [ih (a :: acc) (fun x hx => h x (by simp [hx]))]

/-- Helper: `mapM` over `Option` is the identity when the step fixes every
element. -/
theorem mapM_some_id {α : Type} (f : α → Option α) :
    ∀ l : List α, (∀ x ∈ l, f x = some x) → l.mapM f = some l := by
  intro l h
  have := mapM_loop_some_id f l [] h
  simpa [List.mapM] using this

/-- C1: a SELECT answered by a first chunk (`done=false`, with a
continuation locator) and a final chunk (`done=true`) iterates to exactly
the concatenation of the two chunks' records in server order, and the fetch
trace is exactly the one locator — the continuation URL is fetched exactly
once and no chunk twice.  The hypothesis says every record is an ordinary
row the per-record step passes through unchanged. -/
theorem c1_pagination (annSelect : Option (List (List Char)))
    (fetch : List Char → Option QRChunk) (r1 r2 : List JVal) (loc : List Char)
    (hfetch : fetch loc = some ⟨r2, true, none⟩)
    (hrows : ∀ rec ∈ r1 ++ r2, qrStep annSelect rec = some rec) :
    query_results annSelect fetch 2 ⟨r1, false, some loc⟩ = some (r1 ++ r2, [loc]) := by
  have h1 : ∀ rec ∈ r1, qrStep annSelect rec = some rec :=
    fun rec hm => hrows rec (by simp [hm])
  have h2 : ∀ rec ∈ r2, qrStep annSelect rec = some rec :=
    fun rec hm => hrows rec (by simp [hm])
  simp [query_results, hfetch, mapM_loop_some_id _ r1 [] h1,
    mapM_loop_some_id _ r2 [] h2]

/-- Witness for C1: two concrete one-record chunks. -/
theorem c1_witness :
    query_results none
        (fun url => if url = "/next/1".data then
            some ⟨[.obj [("attributes".data, .obj [("type".data, .s "Contact".data)]),
                         ("Id".data, .s "b".data)]], true, none⟩
          else none)
        2
        ⟨[.obj [("attributes".data, .obj [("type".data, .s "Contact".data)]),
                ("Id".data, .s "a".data)]], false, some "/next/1".data⟩ =
      some ([.obj [("attributes".data, .obj [("type".data, .s "Contact".data)]),
                   ("Id".data, .s "a".data)],
             .obj [("attributes".data, .obj [("type".data, .s "Contact".data)]),
                   ("Id".data, .s "b".data)]], ["/next/1".data]) :=
  c1_pagination none _ _ _ "/next/1".data (by simp) (by
    intro rec hm
    simp only [List.mem_append, List.mem_singleton] at hm
    rcases hm with rfl | rfl <;> rfl)

/-- C8 counterexample: resolving an UPDATE whose pk list is empty issues no
request but leaves `rowcount` as Python `None` — it is *not* set to 0 as
the claim states (unlike DELETE, `execute_update` returns before any
rowcount assignment). -/
theorem c8_counterexample :
    execute_update [] (.ok none) = .ok ⟨0, none⟩ ∧
    execute_update [] (.ok none) ≠ .ok ⟨0, some 0⟩ := by
  constructor
  · rfl
  · intro h
    have hinj := Except.ok.inj h
    simp at hinj

/-- C8 amended: an UPDATE or DELETE whose resolved pk list is empty issues
no network call for the write; DELETE sets `rowcount = 0`, while UPDATE
leaves `rowcount` unset (`None`). -/
theorem c8_empty_pks (ret : Except Raised (Option Resp)) (comp : List Nat) :
    execute_update [] ret = .ok ⟨0, none⟩ ∧
    execute_delete [] ret comp = .ok ⟨0, some 0⟩ := by
  exact ⟨rfl, rfl⟩

/-- C4 (code defect, at a concrete composite exchange): with exactly one
real failure among rollback placeholders, `composite_request` assembles the
synthetic `FakeResp` against the wrong constructor signature — the dumped
body text lands in `headers`, the request object in `text` and the headers
mapping in `request` — so the first line of `raise_errors`
(`method = response.request.method`) raises `AttributeError` instead of
re-raising the failure as a typed error.  With two real failures the
documented `InternalError` is raised. -/
theorem c4_composite_misassembled :
    composite_request
        [⟨"POST".data, "/services/x".data, none, "r0".data, []⟩,
         ⟨"PATCH".data, "/services/y".data, none, "r1".data, []⟩]
        ⟨"application/json".data,
         [⟨400, [⟨"PROCESSING_HALTED".data, "halt".data⟩], "r0".data, []⟩,
          ⟨400, [⟨"INVALID_FIELD".data, "bad field".data⟩], "r1".data, []⟩]⟩ =
      .reconstructed
        { status_code := 400,
          headers := .strv (dumpErrors [⟨"INVALID_FIELD".data, "bad field".data⟩]),
          text := .reqv ⟨"PATCH".data, "/services/y".data, none, []⟩,
          request := .hdrsv [("Content-Type".data, "application/json".data)] }
        (.error .attributeError) ∧
    composite_request
        [⟨"POST".data, "/services/x".data, none, "r0".data, []⟩,
         ⟨"PATCH".data, "/services/y".data, none, "r1".data, []⟩]
        ⟨"application/json".data,
         [⟨400, [⟨"INVALID_FIELD".data, "bad A".data⟩], "r0".data, []⟩,
          ⟨400, [⟨"INVALID_FIELD".data, "bad B".data⟩], "r1".data, []⟩]⟩ =
      .raisedEarly
        (.internal "Too much or too many subrequests with an individual error".data) := by
  exact ⟨rfl, rfl⟩

/-- Helper for C6: in aggregation mode the field loop appends one alias per
field — the maximal trailing identifier run when the field ends in one,
else `expr<N>` where `N` counts the alias-less fields processed so far,
starting from the incoming counter. -/
theorem fieldLoop_agg_aliases (fields : List (List Char)) :
    ∀ (fuel : Nat) (root : List Char) (subqs : List Split) (st st' : FieldState),
      fieldLoop fuel true root subqs fields st = some st' →
      st'.aliases = st.aliases ++ (List.range fields.length).map (fun i =>
        if (trailingWordRun (fields.getD i [])).isEmpty then
          "expr".data ++ (toString (st.counter +
            (fields.take i).countP (fun g => (trailingWordRun g).isEmpty))).data
        else trailingWordRun (fields.getD i [])) := by
  induction fields with
  | nil =>
    intro fuel root subqs st st' h
    rw [fieldLoop.eq_def] at h
    injection h with h'
    subst h'
    simp
  | cons f rest ih =>
    intro fuel root subqs st st' h
    rw [fieldLoop.eq_def] at h
    simp only [if_pos rfl, reduceIte] at h
    by_cases hrun : (trailingWordRun f).isEmpty
    · rw [if_pos hrun] at h
      by_cases hamp : f.contains '&'
      · rw [if_pos hamp] at h; exact absurd h (by simp)
      · rw [if_neg hamp] at h
        have hrec := ih fuel root subqs _ st' h
        rw [hrec]
        simp only [List.length_cons, List.range_succ_eq_map, List.map_cons, List.map_map]
        simp only [List.getD_cons_zero, List.take_zero, List.countP_nil, hrun, if_true,
          Nat.add_zero, List.append_assoc, List.singleton_append]
        congr 1
        congr 1
        apply List.map_congr_left
        intro i _
        have harith : st.counter + 1 +
            List.countP (fun g => (trailingWordRun g).isEmpty) (List.take i rest) =
            st.counter + (List.countP (fun g => (trailingWordRun g).isEmpty)
              (List.take i rest) + 1) := by omega
        simp [Function.comp_apply, List.getD_cons_succ, List.take_succ_cons,
          List.countP_cons, hrun, harith]
    · rw [if_neg hrun] at h
      by_cases hres : RESERVED_WORDS.contains (trailingWordRun f)
      · rw [if_pos hres] at h; exact absurd h (by simp)
      · rw [if_neg hres] at h
        by_cases hamp2 : (if (decide (f.length - (trailingWordRun f).length > 0) &&
              decide (f.getD (f.length - (trailingWordRun f).length - 1) 'x' = ' ')) = true
            then [' '] else f).contains '&'
        · rw [if_pos hamp2] at h; exact absurd h (by simp)
        · rw [if_neg hamp2] at h
          have hrec := ih fuel root subqs _ st' h
          rw [hrec]
          simp only [List.length_cons, List.range_succ_eq_map, List.map_cons, List.map_map]
          simp only [List.getD_cons_zero, List.take_zero, List.countP_nil, hrun, if_false,
            List.append_assoc, List.singleton_append]
          congr 1
          congr 1
          apply List.map_congr_left
          intro i _
          simp only [Function.comp_apply, List.getD_cons_succ, List.take_succ_cons,
            List.countP_cons, hrun]
          simp

set_option maxRecDepth 10000 in
set_option maxHeartbeats 4000000 in
/-- C7 (code defect, evaluated at the failing input): for the bodiless
`SELECT COUNT() FROM Contact`, the parser leaves `is_plain_count` false —
source line 75 reads `fields[0].upper == 'COUNT()'`, comparing the bound
method object itself (the call parentheses are missing), which no string
equals — it records the synthesized alias `expr0` instead of skipping alias
processing, and `parse_rest_response` on the count response
`{totalSize: 3, records: [], done: true}` takes the row-iteration branch
and yields nothing instead of the single integer 3. -/
theorem c7_plain_count_bug :
    (qqueryFromSql 2 "SELECT COUNT() FROM Contact".data).map QQueryM.is_plain_count =
      some false ∧
    (qqueryFromSql 2 "SELECT COUNT() FROM Contact".data).map QQueryM.aliases =
      some ["expr0".data] ∧
    (qqueryFromSql 2 "SELECT COUNT() FROM Contact".data).bind
        (fun q => parse_rest_response q (fun _ => none) 1 ⟨3, true, [], none⟩) =
      some [] ∧
    (some [] : Option (List ResultItem)) ≠ some [.countVal 3] := by
  have hq : qqueryFromSql 2 "SELECT COUNT() FROM Contact".data =
      some (.mk "Contact".data [] ["expr0".data] [.txt "COUNT()".data]
        true false false (.node [])) := by
    simp [qqueryFromSql, fieldLoop, split_subquery, splitSubLoop, mark_quoted_strings,
      scanParts.eq_1, scanParts.eq_2, scanParts.eq_3, matchBody.eq_1, matchBody.eq_2,
      matchBody.eq_3, matchBody.eq_4, matchBody.eq_5, allowedOut, allowedOutChar,
      isWordChar, isSpaceChar, simplify_expression, pyStrip, delAfterNonword,
      delAfterNonwordGo, delBeforeNonword, spacesToBlank, insParenGo.eq_1,
      insParenGo.eq_2, insParenGo.eq_3, insAfterParen, RESERVED_WORDS, searchFrom,
      parSelectAt, List.range, List.range.loop, slice, find_closing_parenthesis, fcpGo,
      String.data, matchSelectFrom, lastFromIdx, fromAt, toUpperL, lowerL, splitOnChar,
      searchGroupBy, searchGroupByGo, matchGroupByAt, searchAggWord, searchAggGo,
      matchAggAt, AGGREGATION_WORDS, isPlainCountOf, trailingWordRun]
    decide
  refine ⟨?_, ?_, ?_, by simp⟩
  · rw [hq]; rfl
  · rw [hq]; rfl
  · rw [hq]
    have hempty : List.mapM.loop (fun r =>
        Option.map ResultItem.row (processRecord (QQueryM.mk "Contact".data []
          ["expr0".data] [QField.txt "COUNT()".data] true false false (Subroots.node [])) r))
        ([] : List JVal) [] = some [] := by
      rw [List.mapM.loop]
      rfl
    simp [parse_rest_response, QQueryM.is_plain_count, List.mapM, hempty]

set_option maxRecDepth 10000 in
set_option maxHeartbeats 4000000 in
/-- C6: parsing `SELECT FirstName, COUNT(Id) xcount, COUNT(Phone) FROM
Contact GROUP BY FirstName` marks the query as an aggregation and derives
exactly the aliases `['FirstName', 'xcount', 'expr0']`; and in general, in
aggregation mode, each field's alias is its maximal trailing identifier
token when the field ends in one, else the synthesized `expr<N>` with `N`
counting the alias-less fields before it, from 0 upward. -/
theorem c6_aggregation_aliases :
    ((qqueryFromSql 2
        "SELECT FirstName, COUNT(Id) xcount, COUNT(Phone) FROM Contact GROUP BY FirstName".data).map
          QQueryM.is_aggregation = some true ∧
     (qqueryFromSql 2
        "SELECT FirstName, COUNT(Id) xcount, COUNT(Phone) FROM Contact GROUP BY FirstName".data).map
          QQueryM.aliases = some ["FirstName".data, "xcount".data, "expr0".data]) ∧
    (∀ (fuel : Nat) (root : List Char) (subqs : List Split) (fields : List (List Char))
        (st' : FieldState),
      fieldLoop fuel true root subqs fields ⟨[], [], .node [], false, 0, 0⟩ = some st' →
      st'.aliases = (List.range fields.length).map (fun i =>
        if (trailingWordRun (fields.getD i [])).isEmpty then
          "expr".data ++ (toString
            ((fields.take i).countP fun g => (trailingWordRun g).isEmpty)).data
        else trailingWordRun (fields.getD i []))) := by
  constructor
  · have hq : qqueryFromSql 2
        "SELECT FirstName, COUNT(Id) xcount, COUNT(Phone) FROM Contact GROUP BY FirstName".data =
        some (.mk "Contact".data " GROUP BY FirstName".data
          ["FirstName".data, "xcount".data, "expr0".data]
          [.txt "FirstName".data, .txt [' '], .txt "COUNT(Phone)".data]
          true false false (.node [])) := by
      simp [qqueryFromSql, fieldLoop, split_subquery, splitSubLoop, mark_quoted_strings,
        scanParts.eq_1, scanParts.eq_2, scanParts.eq_3, matchBody.eq_1, matchBody.eq_2,
        matchBody.eq_3, matchBody.eq_4, matchBody.eq_5, allowedOut, allowedOutChar,
        isWordChar, isSpaceChar, simplify_expression, pyStrip, delAfterNonword,
        delAfterNonwordGo, delBeforeNonword, spacesToBlank, insParenGo.eq_1,
        insParenGo.eq_2, insParenGo.eq_3, insAfterParen, RESERVED_WORDS, searchFrom,
        parSelectAt, List.range, List.range.loop, slice, find_closing_parenthesis, fcpGo,
        String.data, matchSelectFrom, lastFromIdx, fromAt, toUpperL, lowerL, splitOnChar,
        searchGroupBy, searchGroupByGo, matchGroupByAt, searchAggWord, searchAggGo,
        matchAggAt, AGGREGATION_WORDS, isPlainCountOf, trailingWordRun]
      decide
    exact ⟨by rw [hq]; rfl, by rw [hq]; rfl⟩
  · intro fuel root subqs fields st' h
    have := fieldLoop_agg_aliases fields fuel root subqs _ st' h
    simpa using this

/-- Witness for C6's general clause at the two-field list
`['COUNT(Id) xcount', 'COUNT(Phone)']`. -/
theorem c6_witness :
    (⟨["xcount".data, "expr0".data], [.txt [' '], .txt "COUNT(Phone)".data],
        .node [], false, 1, 0⟩ : FieldState).aliases =
      (List.range 2).map (fun i =>
        if (trailingWordRun (["COUNT(Id) xcount".data, "COUNT(Phone)".data].getD i [])).isEmpty
        then "expr".data ++ (toString
          ((["COUNT(Id) xcount".data, "COUNT(Phone)".data].take i).countP
            fun g => (trailingWordRun g).isEmpty)).data
        else trailingWordRun (["COUNT(Id) xcount".data, "COUNT(Phone)".data].getD i [])) :=
  c6_aggregation_aliases.2 1 "Contact".data []
    ["COUNT(Id) xcount".data, "COUNT(Phone)".data] _
    (by simp [fieldLoop.eq_def, trailingWordRun, isWordChar, RESERVED_WORDS, String.data]
        decide)


theorem allowedOut_no_ampersand (p : List Char) (h : allowedOut p = true) : '&' ∉ p := by
  intro hm
  have hall := List.all_eq_true.mp h _ hm
  exact absurd hall (by decide)

theorem fcpGo_found_inv (l : List Char) : ∀ i level opening o c,
    fcpGo l i level opening = .found o c → 1 ≤ level →
    o = opening ∧ i + 1 ≤ c ∧ c ≤ i + l.length := by
  induction l with
  | nil =>
    intro i level opening o c h _
    simp [fcpGo] at h
  | cons ch rest ih =>
    intro i level opening o c h hlev
    simp only [fcpGo] at h
    by_cases h1 : ch = '('
    · rw [if_pos h1, if_neg (by omega : ¬ level = 0)] at h
      have hr := ih (i + 1) (level + 1) opening o c h (by omega)
      refine ⟨hr.1, by omega, by simp only [List.length_cons]; omega⟩
    · rw [if_neg h1] at h
      by_cases h2 : ch = ')'
      · rw [if_pos h2, if_neg (by omega : ¬ level = 0)] at h
        by_cases h3 : level = 1
        · rw [if_pos h3] at h
          cases h
          exact ⟨rfl, Nat.le_refl _, by simp only [List.length_cons]; omega⟩
        · rw [if_neg h3] at h
          have hr := ih (i + 1) (level - 1) opening o c h (by omega)
          refine ⟨hr.1, by omega, by simp only [List.length_cons]; omega⟩
      · rw [if_neg h2] at h
        have hr := ih (i + 1) level opening o c h hlev
        refine ⟨hr.1, by omega, by simp only [List.length_cons]; omega⟩

theorem searchFrom_bounds {p : List Char → Bool} {sql : List Char} {start m : Nat}
    (h : searchFrom p sql start = some m) :
    start ≤ m ∧ p (sql.drop m) = true := by
  unfold searchFrom at h
  have h2 := List.find?_some h
  simp only [Bool.and_eq_true, decide_eq_true_eq] at h2
  exact h2

theorem parSelectAt_head {l : List Char} (h : parSelectAt l = true) :
    ∃ rest, l = '(' :: rest := by
  unfold parSelectAt at h
  split at h
  · next rest => exact ⟨rest, rfl⟩
  · exact absurd h (by simp)

theorem slice_append_drop (l : List Char) (a b : Nat) (hab : a ≤ b) :
    slice l a b ++ l.drop b = l.drop a := by
  unfold slice
  have hb : l.drop b = (l.drop a).drop (b - a) := by
    rw [List.drop_drop]
    congr 1
    omega
  rw [hb]
  exact List.take_append_drop _ _

theorem mem_of_mem_slice {c : Char} {l : List Char} {a b : Nat}
    (h : c ∈ slice l a b) : c ∈ l := by
  unfold slice at h
  exact List.drop_subset _ _ (List.take_subset _ _ h)

theorem mark_quoted_strings_no_ampersand {sql marked : List Char}
    {params : List (List Char)}
    (h : mark_quoted_strings sql = some (marked, params)) : '&' ∉ marked := by
  simp only [mark_quoted_strings] at h
  split at h
  · next hcond =>
    cases h
    simp only [Bool.and_eq_true] at hcond
    intro hm
    rcases List.mem_append.mp hm with hm1 | hm2
    · exact allowedOut_no_ampersand _ hcond.1 hm1
    · rcases List.mem_flatten.mp hm2 with ⟨part, hpart, hmem⟩
      rcases List.mem_map.mp hpart with ⟨pr, hpr, rfl⟩
      rcases List.mem_cons.mp hmem with h' | h'
      · exact absurd h' (by decide)
      · exact allowedOut_no_ampersand _
          (List.all_eq_true.mp hcond.2 pr hpr) h'
  · cases h

theorem pyStrip_subset {c : Char} {l : List Char} (h : c ∈ pyStrip l) : c ∈ l := by
  unfold pyStrip at h
  rw [List.mem_reverse] at h
  have h2 := (List.dropWhile_sublist _).mem h
  rw [List.mem_reverse] at h2
  exact (List.dropWhile_sublist _).mem h2

theorem delAfterNonwordGo_subset {c : Char} (p : Char) (l : List Char)
    (h : c ∈ delAfterNonwordGo p l) : c ∈ l := by
  induction l generalizing p with
  | nil => simpa [delAfterNonwordGo] using h
  | cons d rest ih =>
    rw [delAfterNonwordGo] at h
    split at h
    · exact List.mem_cons_of_mem _ (ih _ h)
    · rcases List.mem_cons.mp h with h' | h'
      · exact h' ▸ List.mem_cons_self _ _
      · exact List.mem_cons_of_mem _ (ih _ h')

theorem delAfterNonword_subset {c : Char} {l : List Char}
    (h : c ∈ delAfterNonword l) : c ∈ l := by
  cases l with
  | nil => simpa [delAfterNonword] using h
  | cons d rest =>
    rw [delAfterNonword] at h
    rcases List.mem_cons.mp h with h' | h'
    · exact h' ▸ List.mem_cons_self _ _
    · exact List.mem_cons_of_mem _ (delAfterNonwordGo_subset _ _ h')

theorem delBeforeNonword_subset {c : Char} {l : List Char}
    (h : c ∈ delBeforeNonword l) : c ∈ l := by
  induction l using delBeforeNonword.induct with
  | case1 => simpa [delBeforeNonword] using h
  | case2 d => simpa [delBeforeNonword] using h
  | case3 d e rest hc ih =>
    rw [delBeforeNonword, if_pos hc] at h
    exact List.mem_cons_of_mem _ (ih h)
  | case4 d e rest hc ih =>
    rw [delBeforeNonword, if_neg hc] at h
    rcases List.mem_cons.mp h with h' | h'
    · exact h' ▸ List.mem_cons_self _ _
    · exact List.mem_cons_of_mem _ (ih h')

theorem spacesToBlank_subset {c : Char} {l : List Char}
    (h : c ∈ spacesToBlank l) : c ∈ l ∨ c = ' ' := by
  unfold spacesToBlank at h
  rcases List.mem_map.mp h with ⟨d, hd, hdc⟩
  by_cases hs : isSpaceChar d = true
  · right; rw [if_pos hs] at hdc; exact hdc.symm
  · left; rw [if_neg hs] at hdc; exact hdc ▸ hd

theorem insParenGo_subset {c : Char} (b : Bool) (l : List Char)
    (h : c ∈ insParenGo b l) : c ∈ l ∨ c = ' ' := by
  induction b, l using insParenGo.induct with
  | case1 b => simpa [insParenGo] using h
  | case2 b rest ih =>
    rw [insParenGo] at h
    rcases List.mem_cons.mp h with h' | h'
    · exact Or.inl (h' ▸ List.mem_cons_self _ _)
    rcases List.mem_cons.mp h' with h'' | h''
    · exact Or.inr h''
    rcases List.mem_cons.mp h'' with h3 | h3
    · exact Or.inl (h3 ▸ List.mem_cons_of_mem _ (List.mem_cons_self _ _))
    · rcases ih h3 with h4 | h4
      · exact Or.inl (List.mem_cons_of_mem _ (List.mem_cons_of_mem _ h4))
      · exact Or.inr h4
  | case3 b d rest hne hb w hfind ih =>
    rw [insParenGo.eq_3 _ _ _ hne, if_pos hb, hfind] at h
    have hpre : (w ++ ['(']) <+: (d :: rest) := by
      have := List.find?_some hfind
      exact List.isPrefixOf_iff_prefix.mp this
    rcases List.mem_append.mp h with h1 | h1
    · rcases List.mem_append.mp h1 with h2 | h2
      · exact Or.inl (hpre.sublist.mem (List.mem_append.mpr (Or.inl h2)))
      · rcases List.mem_cons.mp h2 with h3 | h3
        · exact Or.inr h3
        · simp only [List.mem_singleton] at h3
          exact Or.inl (hpre.sublist.mem (by simp [h3]))
    · rcases ih h1 with h4 | h4
      · exact Or.inl (List.drop_subset _ _ h4)
      · exact Or.inr h4
  | case4 b d rest hne hb hfind ih =>
    rw [insParenGo.eq_3 _ _ _ hne, if_pos hb, hfind] at h
    rcases List.mem_cons.mp h with h' | h'
    · exact Or.inl (h' ▸ List.mem_cons_self _ _)
    · rcases ih h' with h4 | h4
      · exact Or.inl (List.mem_cons_of_mem _ h4)
      · exact Or.inr h4
  | case5 b d rest hne hb ih =>
    rw [insParenGo.eq_3 _ _ _ hne, if_neg hb] at h
    rcases List.mem_cons.mp h with h' | h'
    · exact Or.inl (h' ▸ List.mem_cons_self _ _)
    · rcases ih h' with h4 | h4
      · exact Or.inl (List.mem_cons_of_mem _ h4)
      · exact Or.inr h4

theorem insAfterParen_subset {c : Char} (l : List Char)
    (h : c ∈ insAfterParen l) : c ∈ l ∨ c = ' ' := by
  induction l using insAfterParen.induct with
  | case1 => simpa [insAfterParen] using h
  | case2 d =>
    simp only [insAfterParen, List.mem_singleton] at h
    exact Or.inl (by simp [h])
  | case3 d rest hw ih =>
    rw [insAfterParen, if_pos hw] at h
    rcases List.mem_cons.mp h with h' | h'
    · exact Or.inl (h' ▸ List.mem_cons_self _ _)
    rcases List.mem_cons.mp h' with h'' | h''
    · exact Or.inr h''
    · rcases ih h'' with h4 | h4
      · exact Or.inl (List.mem_cons_of_mem _ h4)
      · exact Or.inr h4
  | case4 d rest hw ih =>
    rw [insAfterParen, if_neg hw] at h
    rcases List.mem_cons.mp h with h' | h'
    · exact Or.inl (h' ▸ List.mem_cons_self _ _)
    · rcases ih h' with h4 | h4
      · exact Or.inl (List.mem_cons_of_mem _ h4)
      · exact Or.inr h4
  | case5 d rest hne hnp ih =>
    rw [insAfterParen.eq_4 _ _ hne hnp] at h
    rcases List.mem_cons.mp h with h' | h'
    · exact Or.inl (h' ▸ List.mem_cons_self _ _)
    · rcases ih h' with h4 | h4
      · exact Or.inl (List.mem_cons_of_mem _ h4)
      · exact Or.inr h4

theorem simplify_expression_no_ampersand {l : List Char} (h : '&' ∉ l) :
    '&' ∉ simplify_expression l := by
  unfold simplify_expression
  intro hm
  rcases insAfterParen_subset _ hm with hm | hm
  rcases insParenGo_subset _ _ hm with hm | hm
  rcases spacesToBlank_subset hm with hm | hm
  · exact h (pyStrip_subset (delAfterNonword_subset (delBeforeNonword_subset hm)))
  all_goals exact absurd hm (by decide)

theorem splitSub_structure (fuel : Nat) :
    (∀ s t subs, split_subquery fuel s = some (t, subs) →
      ∃ marked params ps inners,
        mark_quoted_strings s = some (marked, params) ∧
        ps.length = subs.length + 1 ∧ inners.length = subs.length ∧
        t = joinAmp ps ∧ spliceSpans ps inners = simplify_expression marked ∧
        (∀ p ∈ ps, '&' ∉ p) ∧
        ∀ i, i < subs.length → ∃ fc,
          split_subquery fc (inners.getD i []) =
            some ((subs.getD i (.mk [] [])).text,
                  (subs.getD i (.mk [] [])).children)) ∧
    (∀ σ start t subs, '&' ∉ σ → splitSubLoop fuel σ start = some (t, subs) →
      ∃ ps inners,
        ps.length = subs.length + 1 ∧ inners.length = subs.length ∧
        t = joinAmp ps ∧ spliceSpans ps inners = σ.drop start ∧
        (∀ p ∈ ps, '&' ∉ p) ∧
        ∀ i, i < subs.length → ∃ fc,
          split_subquery fc (inners.getD i []) =
            some ((subs.getD i (.mk [] [])).text,
                  (subs.getD i (.mk [] [])).children)) := by
  induction fuel with
  | zero =>
    constructor
    · intro s t subs h
      simp [split_subquery] at h
    · intro σ start t subs _ h
      simp [splitSubLoop] at h
  | succ fuel ih =>
    constructor
    · intro s t subs h
      simp only [split_subquery] at h
      cases hm : mark_quoted_strings s with
      | none => rw [hm] at h; exact Option.noConfusion h
      | some mp =>
        obtain ⟨marked, params⟩ := mp
        rw [hm] at h
        replace h : splitSubLoop fuel (simplify_expression marked) 0 =
            some (t, subs) := h
        have hamp : '&' ∉ simplify_expression marked :=
          simplify_expression_no_ampersand (mark_quoted_strings_no_ampersand hm)
        obtain ⟨ps, inners, h1, h2, h3, h4, h5, h6⟩ :=
          ih.2 (simplify_expression marked) 0 t subs hamp h
        exact ⟨marked, params, ps, inners, rfl, h1, h2, h3,
          by simpa using h4, h5, h6⟩
    · intro σ start t subs hamp h
      simp only [splitSubLoop] at h
      cases hsearch : searchFrom parSelectAt σ start with
      | none =>
        rw [hsearch] at h
        simp only [Option.some_inj] at h
        obtain ⟨rfl, rfl⟩ := Prod.mk.injEq .. ▸ (Prod.ext_iff.mp h.symm)
        refine ⟨[σ.drop start], [], by simp, by simp, by simp [joinAmp],
          by simp [spliceSpans], ?_, by intro i hi; simp at hi⟩
        intro p hp
        rcases List.mem_singleton.mp hp with rfl
        exact fun hc => hamp (List.drop_subset _ _ hc)
      | some m =>
        rw [hsearch] at h
        dsimp only at h
        obtain ⟨hstart, hpar⟩ := searchFrom_bounds hsearch
        obtain ⟨rest0, hdrop⟩ := parSelectAt_head hpar
        split at h
        next o c hf =>
          obtain ⟨sub, hsub, h⟩ := Option.bind_eq_some.mp h
          obtain ⟨rp, hrest, h⟩ := Option.bind_eq_some.mp h
          obtain ⟨restTxt, subs'⟩ := rp
          simp only [Option.some_inj, Prod.mk.injEq] at h
          obtain ⟨ht, hsubs⟩ := h
          have hfg : fcpGo rest0 (m + 1) 1 m = .found o c := by
            have he : find_closing_parenthesis σ m = fcpGo ('(' :: rest0) m 0 0 := by
              rw [find_closing_parenthesis, hdrop]
            rw [he] at hf
            simpa [fcpGo] using hf
          obtain ⟨ho, hc1, hc2⟩ := fcpGo_found_inv _ _ _ _ _ _ hfg (by omega)
          have hmlen : m ≤ σ.length := by
            by_contra hcon
            have hnil : σ.drop m = [] := List.drop_eq_nil_of_le (by omega)
            rw [hnil] at hdrop; cases hdrop
          have hlen0 : (σ.drop m).length = σ.length - m := List.length_drop _ _
          have hlen1 : rest0.length + 1 = σ.length - m := by
            rw [← hlen0, hdrop]; simp
          obtain ⟨ps', inners', h1, h2, h3, h4, h5, h6⟩ :=
            ih.2 σ (c - 1) restTxt subs' hamp hrest
          obtain ⟨st, sc⟩ := sub
          refine ⟨slice σ start (m + 1) :: ps',
            slice σ (o + 1) (c - 1) :: inners',
            by simp [h1, ← hsubs], by simp [h2, ← hsubs], ?_, ?_, ?_, ?_⟩
          · cases ps' with
            | nil => simp at h1
            | cons p0 ps'' =>
              rw [← ht, h3]
              simp [joinAmp, List.intersperse]
          · have hs1 : σ.drop start = slice σ start (m + 1) ++ σ.drop (m + 1) :=
              (slice_append_drop σ start (m + 1) (by omega)).symm
            have hs2 : σ.drop (m + 1) = slice σ (m + 1) (c - 1) ++ σ.drop (c - 1) :=
              (slice_append_drop σ (m + 1) (c - 1) (by omega)).symm
            rw [spliceSpans, h4, hs1, hs2, ho]
            simp
          · intro p hp
            rcases List.mem_cons.mp hp with rfl | hp'
            · exact fun hcm => hamp (mem_of_mem_slice hcm)
            · exact h5 p hp'
          · intro i hi
            rw [← hsubs] at hi ⊢
            cases i with
            | zero =>
              refine ⟨fuel, ?_⟩
              simpa [Split.text, Split.children] using hsub
            | succ j =>
              simp only [List.getD_cons_succ]
              exact h6 j (by simp at hi; omega)
        next x hne => exact Option.noConfusion h

set_option maxRecDepth 10000 in
set_option maxHeartbeats 4000000 in
/-- C9, counterexample: `split_subquery` returns only a pair (flattened
text, child splits).  The bind parameters collected by
`mark_quoted_strings` are discarded (`_ = params`, subselect.py line 259)
and no list of extracted literal strings is returned: on
`SELECT a FROM b WHERE x='u'` the output text carries the bare `@` marker
and the literal content `u` appears nowhere in the output, so substituting
the literals back cannot reproduce the original text. -/
theorem c9_counterexample :
    split_subquery 2 "SELECT a FROM b WHERE x='u'".data =
      some ("SELECT a FROM b WHERE x=@".data, []) ∧
    'u' ∈ "SELECT a FROM b WHERE x='u'".data ∧
    'u' ∉ "SELECT a FROM b WHERE x=@".data := by
  refine ⟨?_, by decide, by decide⟩
  simp [split_subquery, splitSubLoop, mark_quoted_strings,
    scanParts.eq_1, scanParts.eq_2, scanParts.eq_3, matchBody.eq_1, matchBody.eq_2,
    matchBody.eq_3, matchBody.eq_4, matchBody.eq_5, allowedOut, allowedOutChar,
    isWordChar, isSpaceChar, simplify_expression, pyStrip, delAfterNonword,
    delAfterNonwordGo, delBeforeNonword, spacesToBlank, insParenGo.eq_1,
    insParenGo.eq_2, insParenGo.eq_3, insAfterParen, RESERVED_WORDS, searchFrom,
    parSelectAt, List.range, List.range.loop, slice, find_closing_parenthesis, fcpGo,
    String.data, bsUnescape]

/-- C9 (amended): whenever `split_subquery` succeeds, it returns a pair:
the flattened top-level text and the child splits, with no bind-parameter
or literal list.  The flattened text is the `&`-interleaving of
ampersand-free top-level pieces; splicing each extracted span back between
those pieces reconstructs the whitespace-normalized marked text; and the
child splits are, in left-to-right textual order, exactly the recursive
splits of the extracted spans. -/
theorem c9_split_structure (fuel : Nat) (s t : List Char) (subs : List Split)
    (h : split_subquery fuel s = some (t, subs)) :
    ∃ marked params ps inners,
      mark_quoted_strings s = some (marked, params) ∧
      ps.length = subs.length + 1 ∧
      inners.length = subs.length ∧
      t = joinAmp ps ∧
      spliceSpans ps inners = simplify_expression marked ∧
      (∀ p ∈ ps, '&' ∉ p) ∧
      ∀ i, i < subs.length → ∃ fc,
        split_subquery fc (inners.getD i []) =
          some ((subs.getD i (.mk [] [])).text,
                (subs.getD i (.mk [] [])).children) :=
  (splitSub_structure fuel).1 s t subs h

set_option maxRecDepth 10000 in
set_option maxHeartbeats 4000000 in
/-- Witness for C9 at the nested query
`SELECT a, (SELECT x, (SELECT p FROM q) FROM y) FROM b`. -/
theorem c9_witness :
    ∃ marked params ps inners,
      mark_quoted_strings
          "SELECT a, (SELECT x, (SELECT p FROM q) FROM y) FROM b".data =
        some (marked, params) ∧
      ps.length = [Split.mk "SELECT x, (&) FROM y".data
          [Split.mk "SELECT p FROM q".data []]].length + 1 ∧
      inners.length = [Split.mk "SELECT x, (&) FROM y".data
          [Split.mk "SELECT p FROM q".data []]].length ∧
      "SELECT a, (&) FROM b".data = joinAmp ps ∧
      spliceSpans ps inners = simplify_expression marked ∧
      (∀ p ∈ ps, '&' ∉ p) ∧
      ∀ i, i < [Split.mk "SELECT x, (&) FROM y".data
          [Split.mk "SELECT p FROM q".data []]].length → ∃ fc,
        split_subquery fc (inners.getD i []) =
          some (([Split.mk "SELECT x, (&) FROM y".data
                [Split.mk "SELECT p FROM q".data []]].getD i (.mk [] [])).text,
              ([Split.mk "SELECT x, (&) FROM y".data
                [Split.mk "SELECT p FROM q".data []]].getD i (.mk [] [])).children) :=
  c9_split_structure 6 "SELECT a, (SELECT x, (SELECT p FROM q) FROM y) FROM b".data
    "SELECT a, (&) FROM b".data
    [Split.mk "SELECT x, (&) FROM y".data [Split.mk "SELECT p FROM q".data []]]
    (by
      have h1 : split_subquery 2 "SELECT p FROM q".data = some ("SELECT p FROM q".data, []) := by
        simp [split_subquery, splitSubLoop, mark_quoted_strings, scanParts.eq_1, scanParts.eq_2, scanParts.eq_3, matchBody.eq_1, matchBody.eq_2,
        matchBody.eq_3, matchBody.eq_4, matchBody.eq_5, allowedOut, allowedOutChar,
        isWordChar, isSpaceChar, simplify_expression, pyStrip, delAfterNonword,
        delAfterNonwordGo, delBeforeNonword, spacesToBlank, insParenGo.eq_1,
        insParenGo.eq_2, insParenGo.eq_3, insAfterParen, RESERVED_WORDS, searchFrom,
        parSelectAt, List.range, List.range.loop, slice, find_closing_parenthesis, fcpGo,
        String.data, bsUnescape]
      simp only [String.data] at h1
      have h2 : split_subquery 4 "SELECT x, (SELECT p FROM q) FROM y".data =
          some ("SELECT x, (&) FROM y".data, [Split.mk "SELECT p FROM q".data []]) := by
        simp [split_subquery, splitSubLoop, mark_quoted_strings, scanParts.eq_1, scanParts.eq_2, scanParts.eq_3, matchBody.eq_1, matchBody.eq_2,
        matchBody.eq_3, matchBody.eq_4, matchBody.eq_5, allowedOut, allowedOutChar,
        isWordChar, isSpaceChar, simplify_expression, pyStrip, delAfterNonword,
        delAfterNonwordGo, delBeforeNonword, spacesToBlank, insParenGo.eq_1,
        insParenGo.eq_2, insParenGo.eq_3, insAfterParen, RESERVED_WORDS, searchFrom,
        parSelectAt, List.range, List.range.loop, slice, find_closing_parenthesis, fcpGo,
        String.data, bsUnescape, h1]
      simp only [String.data] at h2
      have hm0 : mark_quoted_strings "SELECT a, (SELECT x, (SELECT p FROM q) FROM y) FROM b".data = some ("SELECT a, (SELECT x, (SELECT p FROM q) FROM y) FROM b".data, []) := by
        simp [mark_quoted_strings, scanParts.eq_1, scanParts.eq_2, scanParts.eq_3,
          matchBody.eq_1, matchBody.eq_2, matchBody.eq_3, matchBody.eq_4, matchBody.eq_5,
          allowedOut, allowedOutChar, isWordChar, isSpaceChar, String.data]
      simp only [String.data] at hm0
      have hs0 : simplify_expression "SELECT a, (SELECT x, (SELECT p FROM q) FROM y) FROM b".data = "SELECT a, (SELECT x, (SELECT p FROM q) FROM y) FROM b".data := by
        simp [simplify_expression, pyStrip, delAfterNonword, delAfterNonwordGo,
          delBeforeNonword, spacesToBlank, insParenGo.eq_1, insParenGo.eq_2,
          insParenGo.eq_3, insAfterParen, RESERVED_WORDS, isWordChar, isSpaceChar,
          String.data]
      simp only [String.data] at hs0
      have hf0 : searchFrom parSelectAt "SELECT a, (SELECT x, (SELECT p FROM q) FROM y) FROM b".data 0 = some 10 := by
        simp [searchFrom, parSelectAt, List.range, List.range.loop, isWordChar,
          String.data]
      simp only [String.data] at hf0
      have hf1 : searchFrom parSelectAt "SELECT a, (SELECT x, (SELECT p FROM q) FROM y) FROM b".data 45 = none := by
        simp [searchFrom, parSelectAt, List.range, List.range.loop, isWordChar,
          String.data]
      simp only [String.data] at hf1
      have hc0 : find_closing_parenthesis "SELECT a, (SELECT x, (SELECT p FROM q) FROM y) FROM b".data 10 = .found 10 46 := by
        simp [find_closing_parenthesis, fcpGo, String.data]
      simp only [String.data] at hc0
      have htop : split_subquery 6
          "SELECT a, (SELECT x, (SELECT p FROM q) FROM y) FROM b".data =
          splitSubLoop 5
            "SELECT a, (SELECT x, (SELECT p FROM q) FROM y) FROM b".data 0 := by
        have hbind : ∀ {α β : Type} (x : α) (f : α → Option β),
            (do let y ← some x; f y) = f x := fun _ _ => rfl
        simp only [split_subquery, String.data, hm0, hbind, hs0]
      rw [htop]
      simp [splitSubLoop, slice, String.data, hf0, hf1, hc0, h2])

end Salesforce
